import Mathlib

set_option maxHeartbeats 1000000

/-!
Verification of the cjson JSON codec (src/cjson.c).

The development shallowly embeds the decoder (`decode_json` and its leaf
parsers) and the encoder (`encode_object` and its helpers) of cjson.c.

Conventions of the embedding:
* The parse cursor of the C code (`JSONData.ptr` into a NUL-terminated
  buffer) is represented as the remaining suffix of the input, a
  `List Char`; the byte offset reported in error messages is recovered as
  `orig - suffix.length` where `orig` is the length of the whole input.
  Reading the NUL terminator at the end of the buffer corresponds to
  reading past the end of the list (`headCh [] = NUL`).  `JSON_decode`
  rejects inputs with embedded NUL bytes up front, which `decodeTop`
  models explicitly.
* The host recursion guard (`Py_EnterRecursiveCall`) is represented by an
  explicit fuel that is consumed exactly where the C code calls it: when
  entering an array or an object during decoding, and when entering a
  container during (heap) encoding.
* Python byte strings (`str`) are lists of byte values, Python `unicode`
  strings are lists of code points of a wide (UCS-4) build, the build the
  `Py_UNICODE_WIDE` block of `encode_unicode` is compiled for.
* Python floats are a sum of the IEEE-754 special values and finite
  values; finite binary64 values are dyadic rationals and are carried as
  their exact rational value.
-/

/-- Floating-point payload of a Python float: NaN, the two infinities, or a
finite value carried as its exact rational value (every finite binary64
value is a dyadic rational, so this carrier is a superset of the reachable
values). -/
inductive JFloat where
  | nan
  | inf
  | neginf
  | finite (q : ℚ)
deriving DecidableEq

/-- Python value tree as dispatched on by `encode_object` (cjson.c:1072):
`None`, booleans, integers (arbitrary precision), floats, byte strings,
unicode strings, lists, tuples, dicts, and a stand-in for any other Python
object (the "not JSON encodable" branch). -/
inductive PyObject where
  | none
  | bool (b : Bool)
  | int (n : ℤ)
  | float (f : JFloat)
  | str (bs : List ℕ)
  | unicode (cs : List ℕ)
  | list (xs : List PyObject)
  | tuple (xs : List PyObject)
  | dict (es : List (PyObject × PyObject))
  | other

/-- Decimal digit character, `digitCh d` is the ASCII digit for `d < 10`. -/
def digitCh (d : ℕ) : Char := Char.ofNat (48 + d)

/-- Fueled helper for `natToDec` (the fuel only makes the recursion
structural so that the definition evaluates inside the kernel; any fuel
above the digit count gives the same result, see `natToDec_eq`). -/
def natToDecAux : ℕ → ℕ → List Char
  | 0, _ => []
  | fuel + 1, n =>
    if n < 10 then [digitCh n]
    else natToDecAux fuel (n / 10) ++ [digitCh (n % 10)]

/-- Decimal digits of a natural number, most significant digit first; this
models the base-10 conversion performed by the host `PyObject_Str` on
integers (and is used for the integral parts of float literals). -/
def natToDec (n : ℕ) : List Char := natToDecAux (n + 1) n

theorem natToDecAux_fuel_irrel :
    ∀ (m f f' : ℕ), m < f → m < f' → natToDecAux f m = natToDecAux f' m := by
  intro m
  induction m using Nat.strong_induction_on with
  | _ m ih =>
    intro f f' hf hf'
    match f, f' with
    | fg + 1, fg' + 1 =>
      by_cases h10 : m < 10
      · simp [natToDecAux, h10]
      · have hdiv : m / 10 < m := Nat.div_lt_self (by omega) (by omega)
        simp only [natToDecAux, h10, if_false]
        rw [ih (m / 10) hdiv fg fg' (by omega) (by omega)]

/-- The recursion `natToDec` actually performs: single digit below ten,
otherwise the digits of `n / 10` followed by the digit of `n % 10`. -/
theorem natToDec_eq (n : ℕ) :
    natToDec n = if n < 10 then [digitCh n]
                 else natToDec (n / 10) ++ [digitCh (n % 10)] := by
  have hstep : natToDecAux (n + 1) n =
      if n < 10 then [digitCh n]
      else natToDecAux n (n / 10) ++ [digitCh (n % 10)] := rfl
  by_cases h10 : n < 10
  · simp [natToDec, natToDecAux, h10]
  · rw [natToDec, hstep, if_neg h10, if_neg h10,
        natToDecAux_fuel_irrel (n / 10) n (n / 10 + 1)
          (Nat.div_lt_self (by omega) (by omega)) (by omega)]
    rfl

/-- Decimal text of an integer: a minus sign for negative values followed
by the decimal digits of the absolute value (host `PyObject_Str` on
ints/longs, the `PyInt_Check || PyLong_Check` branch of cjson.c:1098). -/
def intToDec (n : ℤ) : List Char :=
  if n < 0 then '-' :: natToDec n.natAbs else natToDec n.natAbs

/-- The lowercase hex digit table `"0123456789abcdef"` of `encode_unicode`
(cjson.c:698). -/
def hexCh (n : ℕ) : Char :=
  match n with
  | 0 => '0' | 1 => '1' | 2 => '2' | 3 => '3' | 4 => '4'
  | 5 => '5' | 6 => '6' | 7 => '7' | 8 => '8' | 9 => '9'
  | 10 => 'a' | 11 => 'b' | 12 => 'c' | 13 => 'd' | 14 => 'e'
  | 15 => 'f' | _ => '0'

/-- Per-byte escaping of `encode_string` (cjson.c:621-680) on a byte value
`b < 256`.  The C code works on a signed `char`, so its final test
`c < ' ' || c >= 0x7f` holds exactly for byte values in
`[0,31] ∪ [127,255]`; the `sprintf("\\u%04x", c & 0xff)` output is
`\u00hh`. -/
def escByte (b : ℕ) : List Char :=
  if b = 34 ∨ b = 92 then ['\\', Char.ofNat b]
  else if b = 9 then ['\\', 't']
  else if b = 10 then ['\\', 'n']
  else if b = 13 then ['\\', 'r']
  else if b = 12 then ['\\', 'f']
  else if b = 8 then ['\\', 'b']
  else if b < 32 ∨ 127 ≤ b then
    ['\\', 'u', '0', '0', hexCh (b % 256 / 16), hexCh (b % 16)]
  else [Char.ofNat b]

/-- Per-code-point escaping of `encode_unicode` (cjson.c:690-821) on a wide
(UCS-4) build: quote and backslash are backslash-escaped; code points at or
above 0x10000 become two `\uhhhh` escapes with
`ucs1 = ((ch >> 10) & 0x3FF) + 0xD800` and `ucs2 = (ch & 0x3FF) + 0xDC00`
(note: the C code does not subtract 0x10000 before splitting); code points
at or above 256 become `\uhhhh`; tab, newline, CR, FF and BS their
two-character escapes; remaining code points below 0x20 or at or above 0x7F
become `\u00hh`; everything else is copied through. -/
def escUni (ch : ℕ) : List Char :=
  if ch = 34 ∨ ch = 92 then ['\\', Char.ofNat ch]
  else if 65536 ≤ ch then
    let u1 := (ch / 1024) % 1024 + 55296
    let u2 := ch % 1024 + 56320
    ['\\', 'u', hexCh (u1 / 4096 % 16), hexCh (u1 / 256 % 16),
     hexCh (u1 / 16 % 16), hexCh (u1 % 16),
     '\\', 'u', hexCh (u2 / 4096 % 16), hexCh (u2 / 256 % 16),
     hexCh (u2 / 16 % 16), hexCh (u2 % 16)]
  else if 256 ≤ ch then
    ['\\', 'u', hexCh (ch / 4096 % 16), hexCh (ch / 256 % 16),
     hexCh (ch / 16 % 16), hexCh (ch % 16)]
  else if ch = 9 then ['\\', 't']
  else if ch = 10 then ['\\', 'n']
  else if ch = 13 then ['\\', 'r']
  else if ch = 12 then ['\\', 'f']
  else if ch = 8 then ['\\', 'b']
  else if ch < 32 ∨ 127 ≤ ch then
    ['\\', 'u', '0', '0', hexCh (ch / 16 % 16), hexCh (ch % 16)]
  else [Char.ofNat ch]

/-- `encode_string` (cjson.c:621): double quotes around the per-byte
escaped content. -/
def encodeStringPy (bs : List ℕ) : List Char :=
  '"' :: (bs.map escByte).flatten ++ ['"']

/-- `encode_unicode` (cjson.c:690): double quotes around the per-code-point
escaped content. -/
def encodeUnicodePy (cs : List ℕ) : List Char :=
  '"' :: (cs.map escUni).flatten ++ ['"']

/-- Encoder error kinds of cjson.c: "object is not JSON encodable", the two
self-reference errors of `encode_list`/`encode_dict`, the non-string dict
key error, and the host recursion-limit failure of
`Py_EnterRecursiveCall`. -/
inductive EncErr where
  | notEncodable
  | selfRefList
  | selfRefDict
  | nonStringKey
  | recursionDepth
deriving DecidableEq

/-- Modelled from the spec: the host `PyObject_Repr` on a finite float
produces "the shortest round-tripping decimal text for the float"
(spec 4.2); this function is not part of the repository.  We model it as
the exact finite decimal expansion of the dyadic value `q = num / 2^k`
(every finite binary64 value is of this shape), with a fractional part of
exactly `k` digits and `".0"` appended to integral values (Python float
repr always contains a `.` or an exponent, so the literal re-decodes as a
float).  On a non-dyadic rational, which no binary64 value maps to, the
output is unspecified. -/
def floatRepr (q : ℚ) : List Char :=
  let k := Nat.log2 q.den
  let n5 : ℤ := q.num * 5 ^ k
  let a := n5.natAbs / 10 ^ k
  let fr := n5.natAbs % 10 ^ k
  let fd := if k = 0 then ['0']
            else List.replicate (k - (natToDec fr).length) '0' ++ natToDec fr
  (if q.num < 0 then ['-'] else []) ++ natToDec a ++ '.' :: fd

/-- Joining of rendered pieces with `", "` as done by `_PyString_Join`
with the bracket decorations already merged into the first and last piece
(the net effect of the piece assembly in `encode_list`, `encode_tuple` and
`encode_dict`). -/
def joinSep : List (List Char) → List Char
  | [] => []
  | [s] => s
  | s :: r => s ++ ',' :: ' ' :: joinSep r

/-- Test used by `encode_dict` (cjson.c:1017):
`PyString_Check(key) || PyUnicode_Check(key)`. -/
def isTextObj : PyObject → Bool
  | .str _ => true
  | .unicode _ => true
  | _ => false

mutual

/-- `encode_object` (cjson.c:1072-1125) on the value tree, with the
branches in the order of the C dispatch.  On a tree, reference cycles are
unrepresentable, so the `Py_ReprEnter` guards of `encode_list` and
`encode_dict` never fire and are omitted here (the heap-level encoder
`encG` below models them); the fuel models the `Py_EnterRecursiveCall`
recursion guard exactly as in the decoder embedding: consumed on every
recursive call, so every run of the C code is the run of the embedding
with any sufficiently large fuel.  The bracket assembly of
`encode_list`/`encode_tuple`/`encode_dict` (empty container short-cut,
pieces joined with `", "` inside the brackets) is inlined at the three
container branches. -/
def encodeObject : ℕ → PyObject → Except EncErr (List Char)
  | fuel, v =>
    match v with
    | .bool true => .ok ['t', 'r', 'u', 'e']
    | .bool false => .ok ['f', 'a', 'l', 's', 'e']
    | .none => .ok ['n', 'u', 'l', 'l']
    | .str bs => .ok (encodeStringPy bs)
    | .unicode cs => .ok (encodeUnicodePy cs)
    | .float .nan => .ok ['N', 'a', 'N']
    | .float .inf => .ok ['I', 'n', 'f', 'i', 'n', 'i', 't', 'y']
    | .float .neginf => .ok ['-', 'I', 'n', 'f', 'i', 'n', 'i', 't', 'y']
    | .float (.finite q) => .ok (floatRepr q)
    | .int n => .ok (intToDec n)
    | .list xs =>
      match fuel with
      | 0 => .error .recursionDepth
      | f + 1 =>
        match xs with
        | [] => .ok ['[', ']']
        | _ :: _ =>
          match listPieces f xs with
          | .error e => .error e
          | .ok ps => .ok ('[' :: joinSep ps ++ [']'])
    | .tuple xs =>
      match fuel with
      | 0 => .error .recursionDepth
      | f + 1 =>
        match xs with
        | [] => .ok ['[', ']']
        | _ :: _ =>
          match tuplePieces f xs with
          | .error e => .error e
          | .ok ps => .ok ('[' :: joinSep ps ++ [']'])
    | .dict es =>
      match fuel with
      | 0 => .error .recursionDepth
      | f + 1 =>
        match es with
        | [] => .ok [Char.ofNat 123, Char.ofNat 125]
        | _ :: _ =>
          match dictPieces f es with
          | .error e => .error e
          | .ok ps => .ok (Char.ofNat 123 :: joinSep ps ++ [Char.ofNat 125])
    | .other => .error .notEncodable
termination_by structural fuel _ => fuel

/-- The element loop of `encode_list` (cjson.c:925-934): renders each
element in order, propagating the first failure. -/
def listPieces : ℕ → List PyObject → Except EncErr (List (List Char))
  | 0, _ => .error .recursionDepth
  | _ + 1, [] => .ok []
  | fuel + 1, x :: r =>
    match encodeObject fuel x with
    | .error e => .error e
    | .ok s =>
      match listPieces fuel r with
      | .error e => .error e
      | .ok ps => .ok (s :: ps)
termination_by structural fuel _ => fuel

/-- The element loop of `encode_tuple` (cjson.c:848-854): identical
rendering of the elements in order (the C code is a separate function over
`PyTupleObject`). -/
def tuplePieces : ℕ → List PyObject → Except EncErr (List (List Char))
  | 0, _ => .error .recursionDepth
  | _ + 1, [] => .ok []
  | fuel + 1, x :: r =>
    match encodeObject fuel x with
    | .error e => .error e
    | .ok s =>
      match tuplePieces fuel r with
      | .error e => .error e
      | .ok ps => .ok (s :: ps)
termination_by structural fuel _ => fuel

/-- The entry loop of `encode_dict` (cjson.c:1013-1035): for each entry,
first the string/unicode key check (cjson.c:1017), then `key`, `": "`,
`value`. -/
def dictPieces : ℕ → List (PyObject × PyObject) → Except EncErr (List (List Char))
  | 0, _ => .error .recursionDepth
  | _ + 1, [] => .ok []
  | fuel + 1, (k, v) :: r =>
    if isTextObj k then
      match encodeObject fuel k with
      | .error e => .error e
      | .ok ek =>
        match encodeObject fuel v with
        | .error e => .error e
        | .ok ev =>
          match dictPieces fuel r with
          | .error e => .error e
          | .ok ps => .ok ((ek ++ ':' :: ' ' :: ev) :: ps)
    else .error .nonStringKey
termination_by structural fuel _ => fuel

end

/-! ### Decoder -/

/-- Decoder error kinds, one per `PyErr_Format`/`PyErr_SetString` site of the
decoding half of cjson.c, each carrying the byte offset the C code reports
(`ptr - str`).  `nullByteInput` models the up-front rejection of inputs with
embedded NUL bytes by `PyString_AsStringAndSize` in `JSON_decode`;
`recursionDepth` the failure of `Py_EnterRecursiveCall`; `noProgress` is an
artifact of the embedding (see `decodeArrLoop`) and is never returned. -/
inductive DecErr where
  | emptyJSON
  | cannotParseTop
  | cannotParseLit (i : ℕ)
  | invalidNumber (i : ℕ)
  | untermString (i : ℕ)
  | invalidString (i : ℕ)
  | cannotDecodeString (i : ℕ)
  | untermArray (i : ℕ)
  | expectingItem (i : ℕ)
  | expectingCommaOrRB (i : ℕ)
  | untermObject (i : ℕ)
  | expectingPropName (i : ℕ)
  | missingColon (i : ℕ)
  | expectingPropValue (i : ℕ)
  | expectingCommaOrRBrace (i : ℕ)
  | extraData (i : ℕ)
  | nullByteInput
  | recursionDepth
  | noProgress
deriving DecidableEq

/-- The NUL terminator the C scanner reads at the end of the buffer. -/
def nulCh : Char := Char.ofNat 0

/-- Reading `*ptr`: the head of the remaining suffix, or the NUL
terminator at the end of the buffer. -/
def headCh (s : List Char) : Char := s.headD nulCh

/-- The C-locale `isspace` used by the `skipSpaces` macro (cjson.c:68):
space, tab, newline, vertical tab, form feed and carriage return. -/
def cSpace (c : Char) : Bool :=
  c = ' ' ∨ c = '\t' ∨ c = '\n' ∨ c = Char.ofNat 11 ∨ c = Char.ofNat 12 ∨ c = '\r'

/-- The `skipSpaces` macro: advance while `isspace(*ptr)` (the NUL
terminator is not a space, so this never runs past the end). -/
def skipWSl (s : List Char) : List Char := s.dropWhile cSpace

/-- `decode_null` (cjson.c:73): exact `"null"` keyword match against the
remaining buffer. -/
def decodeNull (orig : ℕ) (s : List Char) : Except DecErr (PyObject × List Char) :=
  if s.take 4 = ['n', 'u', 'l', 'l'] then .ok (.none, s.drop 4)
  else .error (.cannotParseLit (orig - s.length))

/-- `decode_bool` (cjson.c:92): exact `"true"` / `"false"` keyword match. -/
def decodeBool (orig : ℕ) (s : List Char) : Except DecErr (PyObject × List Char) :=
  if s.take 4 = ['t', 'r', 'u', 'e'] then .ok (.bool true, s.drop 4)
  else if s.take 5 = ['f', 'a', 'l', 's', 'e'] then .ok (.bool false, s.drop 5)
  else .error (.cannotParseLit (orig - s.length))

/-- `decode_nan` (cjson.c:263): exact `"NaN"` keyword match. -/
def decodeNan (orig : ℕ) (s : List Char) : Except DecErr (PyObject × List Char) :=
  if s.take 3 = ['N', 'a', 'N'] then .ok (.float .nan, s.drop 3)
  else .error (.cannotParseLit (orig - s.length))

/-- `decode_inf` (cjson.c:235): exact `"Infinity"`, `"+Infinity"` or
`"-Infinity"` keyword match, in the order of the C branches. -/
def decodeInf (orig : ℕ) (s : List Char) : Except DecErr (PyObject × List Char) :=
  if s.take 8 = ['I', 'n', 'f', 'i', 'n', 'i', 't', 'y'] then
    .ok (.float .inf, s.drop 8)
  else if s.take 9 = ['+', 'I', 'n', 'f', 'i', 'n', 'i', 't', 'y'] then
    .ok (.float .inf, s.drop 9)
  else if s.take 9 = ['-', 'I', 'n', 'f', 'i', 'n', 'i', 't', 'y'] then
    .ok (.float .neginf, s.drop 9)
  else .error (.cannotParseLit (orig - s.length))

/-- Value of a list of decimal digit characters read most significant
first (the accumulator fold a decimal string-to-number conversion
performs). -/
def digitsVal (t : List Char) : ℕ :=
  t.foldl (fun a c => a * 10 + (c.toNat - 48)) 0

/-- Modelled from the spec: the host `PyInt_FromString(str, NULL, 10)` on
the scanned slice — an optional sign followed by at least one decimal
digit, converted exactly (arbitrary precision). -/
def pyIntFromList (s : List Char) : Option ℤ :=
  if headCh s = '-' then
    if s.tail ≠ [] ∧ s.tail.all Char.isDigit then some (-(digitsVal s.tail : ℤ))
    else Option.none
  else if headCh s = '+' then
    if s.tail ≠ [] ∧ s.tail.all Char.isDigit then some (digitsVal s.tail : ℤ)
    else Option.none
  else
    if s ≠ [] ∧ s.all Char.isDigit then some (digitsVal s : ℤ)
    else Option.none

/-- Modelled from the spec: the host `PyFloat_FromString` (strtod) on the
scanned slice, split into its phases (`pyFloatFromList` below is the entry
point).  The spec says the literal "is parsed as a 64-bit float"; we carry
the exact rational value of the literal instead of rounding it to
binary64, which agrees with the host wherever the value is representable
(in particular on every literal the encoder emits). -/
def floatExpPhase (base : ℚ) (t : List Char) : Option ℚ :=
  if headCh t = 'e' ∨ headCh t = 'E' then
    if headCh t.tail = '+' ∨ headCh t.tail = '-' then
      if t.tail.tail.takeWhile Char.isDigit = [] ∨
          t.tail.tail.dropWhile Char.isDigit ≠ [] then Option.none
      else
        some (base * (10 : ℚ) ^ ((if headCh t.tail = '-' then (-1 : ℤ) else 1) *
          (digitsVal (t.tail.tail.takeWhile Char.isDigit) : ℕ)))
    else
      if t.tail.takeWhile Char.isDigit = [] ∨
          t.tail.dropWhile Char.isDigit ≠ [] then Option.none
      else some (base * (10 : ℚ) ^ (digitsVal (t.tail.takeWhile Char.isDigit) : ℕ))
  else if t = [] then some base
  else Option.none

def floatFracPhase (ipart : ℚ) (t1 : List Char) : Option ℚ :=
  if headCh t1 = '.' then
    floatExpPhase (ipart + (digitsVal (t1.tail.takeWhile Char.isDigit) : ℕ) /
        (10 : ℚ) ^ (t1.tail.takeWhile Char.isDigit).length)
      (t1.tail.dropWhile Char.isDigit)
  else floatExpPhase ipart t1

def floatBody (t : List Char) : Option ℚ :=
  if t.takeWhile Char.isDigit = [] then Option.none
  else floatFracPhase (digitsVal (t.takeWhile Char.isDigit) : ℕ)
    (t.dropWhile Char.isDigit)

/-- Modelled from the spec (continued): the whole strtod-style conversion —
sign, integer digits, optional fraction, optional exponent, as the exact
rational value of the literal. -/
def pyFloatFromList (s : List Char) : Option ℚ :=
  if headCh s = '-' then (floatBody s.tail).map (fun q => -q)
  else if headCh s = '+' then floatBody s.tail
  else floatBody s

/-- The integer-part phase of the `decode_number` scan (cjson.c:299-306):
`0` alone, or digits without a leading zero. -/
def scanIntPart (s1 : List Char) : Option (List Char) :=
  if headCh s1 = '0' then
    if (headCh s1.tail).isDigit then Option.none else some s1.tail
  else if (headCh s1).isDigit then some (s1.dropWhile Char.isDigit)
  else Option.none

/-- The fraction phase (cjson.c:308-314): optional `.` followed by at
least one digit; marks the literal as floating point. -/
def scanFracPart (t2 : List Char) : Option (Bool × List Char) :=
  if headCh t2 = '.' then
    if (headCh t2.tail).isDigit then some (true, t2.tail.dropWhile Char.isDigit)
    else Option.none
  else some (false, t2)

/-- The exponent phase (cjson.c:316-324): optional `e`/`E`, optional sign,
at least one digit; marks the literal as floating point. -/
def scanExpPart (isf : Bool) (t4 : List Char) : Option (Bool × List Char) :=
  if headCh t4 = 'e' ∨ headCh t4 = 'E' then
    if headCh t4.tail = '+' ∨ headCh t4.tail = '-' then
      if (headCh t4.tail.tail).isDigit then
        some (true, t4.tail.tail.dropWhile Char.isDigit)
      else Option.none
    else
      if (headCh t4.tail).isDigit then some (true, t4.tail.dropWhile Char.isDigit)
      else Option.none
  else some (isf, t4)

/-- The three phases of the `decode_number` scan (cjson.c:296-324) after
the optional sign: integer part (`0` alone, or digits without a leading
zero), optional fraction, optional exponent.  Returns the float-or-int
flag and the unconsumed rest, or `none` at the `number_error` label. -/
def numScan (s1 : List Char) : Option (Bool × List Char) :=
  match scanIntPart s1 with
  | Option.none => Option.none
  | some t2 =>
    match scanFracPart t2 with
    | Option.none => Option.none
    | some (isf, t4) => scanExpPart isf t4

/-- `decode_number` (cjson.c:285-348): grammar scan (optional `+`/`-` sign
then `numScan`), then conversion of the scanned slice by the host numeric
parsers, the int/float choice made syntactically by the scan. -/
def decodeNumber (orig : ℕ) (s : List Char) : Except DecErr (PyObject × List Char) :=
  match numScan (if headCh s = '-' ∨ headCh s = '+' then s.tail else s) with
  | Option.none => .error (.invalidNumber (orig - s.length))
  | some (isf, rest) =>
    if isf then
      match pyFloatFromList (s.take (s.length - rest.length)) with
      | some q => .ok (.float (.finite q), rest)
      | Option.none => .error (.invalidNumber (orig - s.length))
    else
      match pyIntFromList (s.take (s.length - rest.length)) with
      | some n => .ok (.int n, rest)
      | Option.none => .error (.invalidNumber (orig - s.length))

mutual

/-- The closing-quote scan of `decode_string` (cjson.c:124-164) in its
non-escaping state: returns the raw content between the quotes, the three
flags `has_unicode`, `string_escape`, `slash_unescape`, and the input
after the closing quote; `none` when the NUL terminator is reached first
(the "unterminated string" error).  `isascii(c)` fails exactly for byte
values at or above 128. -/
def scanStr : List Char → Option (List Char × Bool × Bool × Bool × List Char)
  | [] => Option.none
  | c :: t =>
    if c = nulCh then Option.none
    else if c = '\\' then
      match scanStrEsc t with
      | Option.none => Option.none
      | some (cont, hu, se, su, rest) => some ('\\' :: cont, hu, se, su, rest)
    else if c = '"' then some ([], false, false, false, t)
    else
      match scanStr t with
      | Option.none => Option.none
      | some (cont, hu, se, su, rest) =>
        some (c :: cont, hu ∨ 128 ≤ c.toNat, se, su, rest)

/-- The escaping state of the closing-quote scan (cjson.c:143-162): the
character after a backslash sets `has_unicode` for `u`, `string_escape`
for `" r n t b f \`, `slash_unescape` for `/`. -/
def scanStrEsc : List Char → Option (List Char × Bool × Bool × Bool × List Char)
  | [] => Option.none
  | c :: t =>
    if c = nulCh then Option.none
    else
      match scanStr t with
      | Option.none => Option.none
      | some (cont, hu, se, su, rest) =>
        some (c :: cont,
              hu ∨ c = 'u',
              se ∨ (c = '"' ∨ c = 'r' ∨ c = 'n' ∨ c = 't' ∨ c = 'b' ∨ c = 'f' ∨ c = '\\'),
              su ∨ c = '/',
              rest)

end

/-- The in-place `\/` unescaping pass of `decode_string` (cjson.c:169-193):
drops each backslash that immediately precedes a `/`; every other
character is copied through. -/
def slashClean : List Char → List Char
  | [] => []
  | '\\' :: '/' :: r => '/' :: slashClean r
  | '\\' :: c :: r => '\\' :: slashClean (c :: r)
  | ['\\'] => ['\\']
  | c :: r => c :: slashClean r

/-- Value of one hex digit, as understood by a `\uXXXX` escape. -/
def hexVal (c : Char) : Option ℕ :=
  if '0' ≤ c ∧ c ≤ '9' then some (c.toNat - 48)
  else if 'a' ≤ c ∧ c ≤ 'f' then some (c.toNat - 87)
  else if 'A' ≤ c ∧ c ≤ 'F' then some (c.toNat - 55)
  else Option.none

/-- Value of four hex digits. -/
def hex4 (a b c d : Char) : Option ℕ :=
  match hexVal a, hexVal b, hexVal c, hexVal d with
  | some x, some y, some z, some w => some (x * 4096 + y * 256 + z * 16 + w)
  | _, _, _, _ => Option.none

/-- Modelled from the spec: the escape-unescaping of string content on the
unicode path, performed in the C code by the host codec
`PyUnicode_DecodeUnicodeEscape`, which is not part of this repository.
Per spec 4.1 the content is unescaped "per standard JSON string escaping
rules (mapping `\" \\ \/ \b \f \n \r \t` to their literal characters,
`\uXXXX` to the corresponding code point, surrogate pairs combined when
both halves are valid high/low surrogates)"; a decoding failure (invalid
escape) yields an error. -/
def uniUnescF : ℕ → List Char → Option (List ℕ)
  | 0, _ => Option.none
  | _ + 1, [] => some []
  | fuel + 1, '\\' :: t =>
    match t with
    | '"' :: r => (uniUnescF fuel r).map (34 :: ·)
    | '\\' :: r => (uniUnescF fuel r).map (92 :: ·)
    | '/' :: r => (uniUnescF fuel r).map (47 :: ·)
    | 'b' :: r => (uniUnescF fuel r).map (8 :: ·)
    | 'f' :: r => (uniUnescF fuel r).map (12 :: ·)
    | 'n' :: r => (uniUnescF fuel r).map (10 :: ·)
    | 'r' :: r => (uniUnescF fuel r).map (13 :: ·)
    | 't' :: r => (uniUnescF fuel r).map (9 :: ·)
    | 'u' :: a :: b :: c :: d :: r =>
      match hex4 a b c d with
      | Option.none => Option.none
      | some v =>
        if 55296 ≤ v ∧ v ≤ 56319 then
          match r with
          | '\\' :: 'u' :: a2 :: b2 :: c2 :: d2 :: r2 =>
            match hex4 a2 b2 c2 d2 with
            | some w =>
              if 56320 ≤ w ∧ w ≤ 57343 then
                (uniUnescF fuel r2).map
                  ((65536 + (v - 55296) * 1024 + (w - 56320)) :: ·)
              else
                (uniUnescF fuel ('\\' :: 'u' :: a2 :: b2 :: c2 :: d2 :: r2)).map
                  (v :: ·)
            | Option.none =>
              (uniUnescF fuel ('\\' :: 'u' :: a2 :: b2 :: c2 :: d2 :: r2)).map
                (v :: ·)
          | _ => (uniUnescF fuel r).map (v :: ·)
        else (uniUnescF fuel r).map (v :: ·)
    | _ => Option.none
  | fuel + 1, c :: t => (uniUnescF fuel t).map (c.toNat :: ·)
termination_by structural fuel _ => fuel

/-- Entry point: every step of `uniUnescF` consumes at least one input
character, so a fuel of `length + 1` never runs out. -/
def uniUnesc (s : List Char) : Option (List ℕ) := uniUnescF (s.length + 1) s

/-- Modelled from the spec: the escape-unescaping of string content on the
byte-string path, performed in the C code by the host codec
`PyString_DecodeEscape`, which is not part of this repository — the same
JSON mapping on bytes.  This path is only reached when the scan saw no
`\u` escape, so no `\u` case is needed. -/
def strUnesc : List Char → Option (List ℕ)
  | [] => some []
  | '\\' :: t =>
    match t with
    | '"' :: r => (strUnesc r).map (34 :: ·)
    | '\\' :: r => (strUnesc r).map (92 :: ·)
    | '/' :: r => (strUnesc r).map (47 :: ·)
    | 'b' :: r => (strUnesc r).map (8 :: ·)
    | 'f' :: r => (strUnesc r).map (12 :: ·)
    | 'n' :: r => (strUnesc r).map (10 :: ·)
    | 'r' :: r => (strUnesc r).map (13 :: ·)
    | 't' :: r => (strUnesc r).map (9 :: ·)
    | _ => Option.none
  | c :: t => (strUnesc t).map (c.toNat :: ·)

/-- `decode_string` (cjson.c:115-232): the closing-quote scan, the
conditional `\/` pass (only for content shorter than 16384 bytes, the
`alloca` guard at cjson.c:169), then one of the three conversion paths
chosen by the flags: unicode when a `\u` escape or a non-ASCII byte was
seen (or `all_unicode` is set), byte-string escape decoding when another
escape was seen, otherwise a verbatim byte-string copy. -/
def decodeString (orig : ℕ) (allU : Bool) (s : List Char) :
    Except DecErr (PyObject × List Char) :=
  let pos := orig - s.length
  match s with
  | '"' :: t =>
    match scanStr t with
    | Option.none => .error (.untermString pos)
    | some (cont0, hu, se, su, rest) =>
      let cont := if su ∧ cont0.length < 16384 then slashClean cont0 else cont0
      if hu ∨ allU then
        match uniUnesc cont with
        | some cs => .ok (.unicode cs, rest)
        | Option.none => .error (.cannotDecodeString pos)
      else if se then
        match strUnesc cont with
        | some bs => .ok (.str bs, rest)
        | Option.none => .error (.cannotDecodeString pos)
      else .ok (.str (cont.map Char.toNat), rest)
  | _ => .error (.invalidString pos)

/-- Key equality used by the host `PyDict_SetItem` on decoded keys: decoded
keys are always byte strings or unicode strings, and Python compares those
by character content. -/
def keyContent : PyObject → Option (List ℕ)
  | .str bs => some bs
  | .unicode cs => some cs
  | _ => Option.none

/-- `PyDict_SetItem` on the association-list model: replace the value at
an existing key (keeping the original key object and position, as a
Python dict does), otherwise append the new entry. -/
def dictSet (es : List (PyObject × PyObject)) (k v : PyObject) :
    List (PyObject × PyObject) :=
  match es with
  | [] => [(k, v)]
  | (k0, v0) :: r =>
    if keyContent k0 = keyContent k ∧ (keyContent k).isSome then (k0, v) :: r
    else (k0, v0) :: dictSet r k v

/-- States of the `decode_array` machine (cjson.c:351). -/
inductive AState where
  | itemOrClose
  | commaOrClose
  | item

/-- States of the `decode_object` machine (cjson.c:433). -/
inductive OState where
  | keyOrClose
  | commaOrClose
  | key

theorem skipWSl_length_le (s : List Char) : (skipWSl s).length ≤ s.length := by
  induction s with
  | nil => simp [skipWSl]
  | cons c t ih =>
    unfold skipWSl at ih ⊢
    rw [List.dropWhile_cons]
    split
    · exact le_trans ih (by simp)
    · simp

mutual

/-- `decode_json` (cjson.c:545-608): skip spaces, then dispatch on the next
character.  The C code recurses through `decode_array`/`decode_object`,
bounded by the host recursion guard `Py_EnterRecursiveCall`; the embedding
makes the bound explicit as a fuel that is consumed on every recursive
call (the C while-loops included), so every run of the C code is the run
of the embedding with any sufficiently large fuel, and fuel exhaustion is
the guard's `recursionDepth` failure. -/
def decodeJson : ℕ → Bool → ℕ → List Char → Except DecErr (PyObject × List Char)
  | 0, _, _, _ => .error .recursionDepth
  | fuel + 1, allU, orig, s =>
    let s1 := skipWSl s
    match s1 with
    | [] => .error .emptyJSON
    | c :: t =>
      if c = nulCh then .error .emptyJSON
      else if c = Char.ofNat 123 then
        decodeObjLoop fuel allU orig (orig - s1.length) .keyOrClose [] t
      else if c = '[' then
        decodeArrLoop fuel allU orig (orig - s1.length) .itemOrClose [] t
      else if c = '"' then decodeString orig allU s1
      else if c = 't' ∨ c = 'f' then decodeBool orig s1
      else if c = 'n' then decodeNull orig s1
      else if c = 'N' then decodeNan orig s1
      else if c = 'I' then decodeInf orig s1
      else if c = '+' ∨ c = '-' then
        if headCh t = 'I' then decodeInf orig s1 else decodeNumber orig s1
      else if c.isDigit then decodeNumber orig s1
      else .error .cannotParseTop
termination_by structural fuel _ _ _ => fuel

/-- The `decode_array` loop (cjson.c:358-430).  `start` is the byte offset
of the opening bracket, `cur` the input just after the last consumed
character. -/
def decodeArrLoop : ℕ → Bool → ℕ → ℕ → AState → List PyObject → List Char →
    Except DecErr (PyObject × List Char)
  | 0, _, _, _, _, _, _ => .error .recursionDepth
  | fuel + 1, allU, orig, start, st, acc, cur =>
    let cur1 := skipWSl cur
    let pos := orig - cur1.length
    match cur1 with
    | [] => .error (.untermArray start)
    | c :: t =>
      if c = nulCh then .error (.untermArray start)
      else
        match st with
        | .itemOrClose =>
          if c = ']' then .ok (.list acc, t)
          else if c = ',' then .error (.expectingItem pos)
          else
            match decodeJson fuel allU orig cur1 with
            | .error e => .error e
            | .ok (v, rem) =>
              decodeArrLoop fuel allU orig start .commaOrClose (acc ++ [v]) rem
        | .item =>
          if c = ',' ∨ c = ']' then .error (.expectingItem pos)
          else
            match decodeJson fuel allU orig cur1 with
            | .error e => .error e
            | .ok (v, rem) =>
              decodeArrLoop fuel allU orig start .commaOrClose (acc ++ [v]) rem
        | .commaOrClose =>
          if c = ']' then .ok (.list acc, t)
          else if c = ',' then decodeArrLoop fuel allU orig start .item acc t
          else .error (.expectingCommaOrRB pos)
termination_by structural fuel _ _ _ _ _ _ => fuel

/-- The `decode_object` loop (cjson.c:440-542). -/
def decodeObjLoop : ℕ → Bool → ℕ → ℕ → OState → List (PyObject × PyObject) →
    List Char → Except DecErr (PyObject × List Char)
  | 0, _, _, _, _, _, _ => .error .recursionDepth
  | fuel + 1, allU, orig, start, st, acc, cur =>
    let cur1 := skipWSl cur
    let pos := orig - cur1.length
    match cur1 with
    | [] => .error (.untermObject start)
    | c :: t =>
      if c = nulCh then .error (.untermObject start)
      else
        match st with
        | .keyOrClose =>
          if c = Char.ofNat 125 then .ok (.dict acc, t)
          else decodeObjKey fuel allU orig start acc cur
        | .key => decodeObjKey fuel allU orig start acc cur
        | .commaOrClose =>
          if c = Char.ofNat 125 then .ok (.dict acc, t)
          else if c = ',' then decodeObjLoop fuel allU orig start .key acc t
          else .error (.expectingCommaOrRBrace pos)
termination_by structural fuel _ _ _ _ _ _ => fuel

/-- The `DictionaryKey` body of the `decode_object` loop (cjson.c:472-516):
key parse, colon, the empty-value check (value position immediately `,` or
`}`), value parse, `PyDict_SetItem`. -/
def decodeObjKey : ℕ → Bool → ℕ → ℕ → List (PyObject × PyObject) → List Char →
    Except DecErr (PyObject × List Char)
  | 0, _, _, _, _, _ => .error .recursionDepth
  | fuel + 1, allU, orig, start, acc, cur =>
    let cur1 := skipWSl cur
    let pos := orig - cur1.length
    if headCh cur1 ≠ '"' then .error (.expectingPropName pos)
    else
      match decodeJson fuel allU orig cur1 with
      | .error e => .error e
      | .ok (k, r1) =>
        let r2 := skipWSl r1
        if headCh r2 ≠ ':' then .error (.missingColon (orig - r2.length))
        else
          let r3 := skipWSl r2.tail
          if headCh r3 = ',' ∨ headCh r3 = Char.ofNat 125 then
            .error (.expectingPropValue (orig - r3.length))
          else
            match decodeJson fuel allU orig r3 with
            | .error e => .error e
            | .ok (v, r4) =>
              decodeObjLoop fuel allU orig start .commaOrClose (dictSet acc k v) r4
termination_by structural fuel _ _ _ _ _ => fuel

end

/-- `JSON_decode` (cjson.c:1139-1187): reject inputs with embedded NUL
bytes (`PyString_AsStringAndSize`), parse the top-level value, skip
trailing whitespace, and fail with the extra-data error at the offset of
the first remaining byte if any input is left. -/
def decodeTop (fuel : ℕ) (allU : Bool) (s : List Char) : Except DecErr PyObject :=
  if s.any (· = nulCh) then .error .nullByteInput
  else
    match decodeJson fuel allU s.length s with
    | .error e => .error e
    | .ok (v, rem) =>
      let rem1 := skipWSl rem
      if rem1 = [] then .ok v else .error (.extraData (s.length - rem1.length))

/-! ### Heap-level encoder

Reference cycles (`a[0] = a`) are not representable in the value tree, so
the `Py_ReprEnter` guards of `encode_list` and `encode_dict` are modelled
on an object heap: ids in place of direct sub-objects, and the set of
containers currently being rendered threaded explicitly. -/

/-- A Python object as seen through reference identity: containers hold
object ids into a heap. -/
inductive HNode where
  | hnone
  | hbool (b : Bool)
  | hint (n : ℤ)
  | hfloat (f : JFloat)
  | hstr (bs : List ℕ)
  | huni (cs : List ℕ)
  | hlist (ids : List ℕ)
  | htuple (ids : List ℕ)
  | hdict (es : List (ℕ × ℕ))
  | hother

/-- An object heap: object id to node. -/
def Heap := ℕ → HNode

mutual

/-- `encode_object` (cjson.c:1072) on the heap.  `ips` is the set of
containers marked by `Py_ReprEnter` higher on the current call path:
`encode_list` (cjson.c:905) and `encode_dict` (cjson.c:989) check and
extend it before descending and fail with their self-reference error when
the container is already marked; `encode_tuple` (cjson.c:832) performs no
such check and no marking.  As in the decoder embedding, the fuel bounds
the recursion (`Py_EnterRecursiveCall` is called at the three container
branches of `encode_object`) and is consumed on every recursive call. -/
def encG (h : Heap) : ℕ → List ℕ → ℕ → Except EncErr (List Char)
  | fuel, ips, x =>
    match h x with
    | .hnone => .ok ['n', 'u', 'l', 'l']
    | .hbool true => .ok ['t', 'r', 'u', 'e']
    | .hbool false => .ok ['f', 'a', 'l', 's', 'e']
    | .hint n => .ok (intToDec n)
    | .hfloat .nan => .ok ['N', 'a', 'N']
    | .hfloat .inf => .ok ['I', 'n', 'f', 'i', 'n', 'i', 't', 'y']
    | .hfloat .neginf => .ok ['-', 'I', 'n', 'f', 'i', 'n', 'i', 't', 'y']
    | .hfloat (.finite q) => .ok (floatRepr q)
    | .hstr bs => .ok (encodeStringPy bs)
    | .huni cs => .ok (encodeUnicodePy cs)
    | .hlist ids =>
      match fuel with
      | 0 => .error .recursionDepth
      | f + 1 =>
        if x ∈ ips then .error .selfRefList
        else
          match ids with
          | [] => .ok ['[', ']']
          | _ :: _ =>
            match encGItems h f (x :: ips) ids with
            | .error e => .error e
            | .ok ps => .ok ('[' :: joinSep ps ++ [']'])
    | .htuple ids =>
      match fuel with
      | 0 => .error .recursionDepth
      | f + 1 =>
        match ids with
        | [] => .ok ['[', ']']
        | _ :: _ =>
          match encGItems h f ips ids with
          | .error e => .error e
          | .ok ps => .ok ('[' :: joinSep ps ++ [']'])
    | .hdict es =>
      match fuel with
      | 0 => .error .recursionDepth
      | f + 1 =>
        if x ∈ ips then .error .selfRefDict
        else
          match es with
          | [] => .ok [Char.ofNat 123, Char.ofNat 125]
          | _ :: _ =>
            match encGEntries h f (x :: ips) es with
            | .error e => .error e
            | .ok ps => .ok (Char.ofNat 123 :: joinSep ps ++ [Char.ofNat 125])
    | .hother => .error .notEncodable
termination_by structural fuel _ _ => fuel

/-- The element loop of `encode_list`/`encode_tuple` on the heap. -/
def encGItems (h : Heap) : ℕ → List ℕ → List ℕ → Except EncErr (List (List Char))
  | 0, _, _ => .error .recursionDepth
  | _ + 1, _, [] => .ok []
  | fuel + 1, ips, y :: r =>
    match encG h fuel ips y with
    | .error e => .error e
    | .ok s =>
      match encGItems h fuel ips r with
      | .error e => .error e
      | .ok ps => .ok (s :: ps)
termination_by structural fuel _ _ => fuel

/-- The entry loop of `encode_dict` on the heap, with the
string/unicode key check (cjson.c:1017) before each entry. -/
def encGEntries (h : Heap) : ℕ → List ℕ → List (ℕ × ℕ) →
    Except EncErr (List (List Char))
  | 0, _, _ => .error .recursionDepth
  | _ + 1, _, [] => .ok []
  | fuel + 1, ips, (k, v) :: r =>
    match h k with
    | .hstr _ | .huni _ =>
      match encG h fuel ips k with
      | .error e => .error e
      | .ok ek =>
        match encG h fuel ips v with
        | .error e => .error e
        | .ok ev =>
          match encGEntries h fuel ips r with
          | .error e => .error e
          | .ok ps => .ok ((ek ++ ':' :: ' ' :: ev) :: ps)
    | _ => .error .nonStringKey
termination_by structural fuel _ _ => fuel

end

/-! ### Structural equality and well-formedness -/

/-- Text content of a value: a byte string read as the code points of its
bytes, a unicode string as its code points.  Used both for the key
equality of `PyDict_SetItem` and for comparing text "by content". -/
def arrElems : PyObject → Option (List PyObject)
  | .list xs => some xs
  | .tuple xs => some xs
  | _ => Option.none

/-- Structural equality in the sense of the round-trip claim: numbers
compared by value (NaN equal to NaN), text compared by content, array-like
values (lists and tuples both render as JSON arrays) pointwise, objects
entrywise — decoding preserves the entry order of the encoded text, so for
objects with content-distinct keys entrywise equality is equality as a
mapping. -/
inductive Veq : PyObject → PyObject → Prop where
  | vnone : Veq .none .none
  | vbool (b : Bool) : Veq (.bool b) (.bool b)
  | vint (m n : ℤ) : m = n → Veq (.int m) (.int n)
  | vintFloat (m : ℤ) (q : ℚ) : (m : ℚ) = q → Veq (.int m) (.float (.finite q))
  | vfloatInt (q : ℚ) (m : ℤ) : q = (m : ℚ) → Veq (.float (.finite q)) (.int m)
  | vnan : Veq (.float .nan) (.float .nan)
  | vinf : Veq (.float .inf) (.float .inf)
  | vneginf : Veq (.float .neginf) (.float .neginf)
  | vfinite (p q : ℚ) : p = q → Veq (.float (.finite p)) (.float (.finite q))
  | vtext (a b : PyObject) (u : List ℕ) :
      keyContent a = some u → keyContent b = some u → Veq a b
  | varr (a b : PyObject) (xs ys : List PyObject) :
      arrElems a = some xs → arrElems b = some ys →
      List.Forall₂ Veq xs ys → Veq a b
  | vdict (es fs : List (PyObject × PyObject)) :
      es.map (fun e => keyContent e.1) = fs.map (fun e => keyContent e.1) →
      (∀ e ∈ es, (keyContent e.1).isSome) →
      List.Forall₂ Veq (es.map Prod.snd) (fs.map Prod.snd) →
      Veq (.dict es) (.dict fs)

/-- Well-formedness of a codec-representable value; `bound` is the largest
allowed code point of unicode text (`1114111` for the full value model).
Conditions: finite floats are dyadic rationals (all finite binary64 values
are), byte strings hold byte values, unicode strings hold Unicode scalar
values at most `bound` (surrogate code points are not scalar values and no
valid text contains them), object keys are text and distinct by content,
and the non-codec stand-in `other` does not occur. -/
inductive WfB (bound : ℕ) : PyObject → Prop where
  | wnone : WfB bound .none
  | wbool (b : Bool) : WfB bound (.bool b)
  | wint (n : ℤ) : WfB bound (.int n)
  | wnan : WfB bound (.float .nan)
  | winf : WfB bound (.float .inf)
  | wneginf : WfB bound (.float .neginf)
  | wfinite (q : ℚ) : q.den = 2 ^ Nat.log2 q.den → WfB bound (.float (.finite q))
  | wstr (bs : List ℕ) : (∀ b ∈ bs, b < 256) → WfB bound (.str bs)
  | wuni (cs : List ℕ) :
      (∀ c ∈ cs, c ≤ bound ∧ (c < 55296 ∨ 57343 < c)) → WfB bound (.unicode cs)
  | wlist (xs : List PyObject) : (∀ x ∈ xs, WfB bound x) → WfB bound (.list xs)
  | wtuple (xs : List PyObject) : (∀ x ∈ xs, WfB bound x) → WfB bound (.tuple xs)
  | wdict (es : List (PyObject × PyObject)) :
      (∀ e ∈ es, (keyContent e.1).isSome) →
      (∀ e ∈ es, WfB bound e.1) →
      (∀ e ∈ es, WfB bound e.2) →
      (es.map (fun e => keyContent e.1)).Nodup →
      WfB bound (.dict es)

/-! ### C10: tuples render as lists -/

theorem tuplePieces_eq_listPieces : ∀ f l, tuplePieces f l = listPieces f l := by
  intro f
  induction f with
  | zero => intro l; rfl
  | succ f ih =>
    intro l
    cases l with
    | nil => rfl
    | cons x r => simp only [tuplePieces, listPieces, ih]

/-- C10: `encode` renders a tuple exactly as it renders a list with the
same element sequence — the empty tuple as `"[]"`, a non-empty tuple as
the element encodings joined by `", "` inside brackets — so the two
encodings agree whenever either succeeds (on the value tree they are equal
outright, failures included). -/
theorem c10_tuple_encodes_as_list (fuel : ℕ) (xs : List PyObject) :
    encodeObject fuel (.tuple xs) = encodeObject fuel (.list xs) := by
  cases fuel with
  | zero => rfl
  | succ f =>
    cases xs with
    | nil => rfl
    | cons x r =>
      simp only [encodeObject, tuplePieces_eq_listPieces]

/-! ### C3: the non-standard float literals -/

/-- C3: `encode` maps NaN to `"NaN"`, positive infinity to `"Infinity"`
and negative infinity to `"-Infinity"`; `decode` accepts `"NaN"`,
`"Infinity"`, `"+Infinity"` and `"-Infinity"` (for any recursion budget)
and returns the corresponding float, `"+Infinity"` giving positive
infinity. -/
theorem c3_float_specials :
    (∀ fuel, encodeObject fuel (.float .nan) = .ok ['N', 'a', 'N']) ∧
    (∀ fuel, encodeObject fuel (.float .inf) =
      .ok ['I', 'n', 'f', 'i', 'n', 'i', 't', 'y']) ∧
    (∀ fuel, encodeObject fuel (.float .neginf) =
      .ok ['-', 'I', 'n', 'f', 'i', 'n', 'i', 't', 'y']) ∧
    (∀ fuel, decodeTop (fuel + 1) false ['N', 'a', 'N'] = .ok (.float .nan)) ∧
    (∀ fuel, decodeTop (fuel + 1) false ['I', 'n', 'f', 'i', 'n', 'i', 't', 'y'] =
      .ok (.float .inf)) ∧
    (∀ fuel, decodeTop (fuel + 1) false ['+', 'I', 'n', 'f', 'i', 'n', 'i', 't', 'y'] =
      .ok (.float .inf)) ∧
    (∀ fuel, decodeTop (fuel + 1) false ['-', 'I', 'n', 'f', 'i', 'n', 'i', 't', 'y'] =
      .ok (.float .neginf)) := by
  refine ⟨fun fuel => by simp [encodeObject], fun fuel => by simp [encodeObject],
          fun fuel => by simp [encodeObject], fun fuel => ?_, fun fuel => ?_,
          fun fuel => ?_, fun fuel => ?_⟩ <;>
    simp [decodeTop, decodeJson, decodeNan, decodeInf, skipWSl, headCh, nulCh,
          cSpace, List.dropWhile]

/-! ### C4: the reentrancy guards of the encoder -/

/-- A heap in which object 0 is a tuple whose only element is itself. -/
def tupleCycleHeap : Heap := fun _ => .htuple [0]

/-- A heap in which object 0 is a list whose only element is itself
(`a[0] = a`). -/
def listCycleHeap : Heap := fun _ => .hlist [0]

/-- A heap in which object 0 is a dict mapping the string object 1 to
object 0 itself. -/
def dictCycleHeap : Heap := fun n => if n = 0 then .hdict [(1, 0)] else .hstr [97]

theorem encG_tuple_cycle_depth :
    ∀ fuel, encG tupleCycleHeap fuel [] 0 = .error .recursionDepth := by
  intro fuel
  induction fuel using Nat.strong_induction_on with
  | _ fuel ih =>
    match fuel with
    | 0 => simp [encG, tupleCycleHeap]
    | 1 => simp [encG, encGItems, tupleCycleHeap]
    | g + 2 => simp [encG, encGItems, tupleCycleHeap, ih g (by omega)]

/-- C4 counterexample: the claim promises the self-reference `EncodeError`
for any self-referential container, at both array and object boundaries;
but `encode_tuple` (cjson.c:832-886, one of the claim's own sources) has no
`Py_ReprEnter` guard, so a tuple whose element is itself is not detected —
the encoder recurses until the recursion guard fails and the result is the
recursion-depth error, not the self-reference error. -/
theorem c4_tuple_counterexample :
    encG tupleCycleHeap 5 [] 0 = .error .recursionDepth ∧
    EncErr.recursionDepth ≠ EncErr.selfRefList ∧
    EncErr.recursionDepth ≠ EncErr.selfRefDict :=
  ⟨rfl, by decide, by decide⟩

/-- C4 (amended): before descending into a list or a dict, the encoder
checks whether that exact container is already being rendered higher on
the current call path and fails with the matching self-reference error —
so a list with itself as first element and a dict with itself as first
value fail with the self-reference `EncodeError` for every sufficient
recursion budget.  Tuples carry no such guard: an (only C-API
constructible) all-tuple cycle runs into the recursion guard instead, for
every budget. -/
theorem c4_cycle_guards :
    (∀ (h : Heap) (fuel : ℕ) (ips : List ℕ) (x : ℕ) (ids : List ℕ),
        x ∈ ips → h x = .hlist ids →
        encG h (fuel + 1) ips x = .error .selfRefList) ∧
    (∀ (h : Heap) (fuel : ℕ) (ips : List ℕ) (x : ℕ) (es : List (ℕ × ℕ)),
        x ∈ ips → h x = .hdict es →
        encG h (fuel + 1) ips x = .error .selfRefDict) ∧
    (∀ (h : Heap) (fuel : ℕ) (x : ℕ) (t : List ℕ),
        h x = .hlist (x :: t) →
        encG h (fuel + 3) [] x = .error .selfRefList) ∧
    (∀ (h : Heap) (fuel : ℕ) (x k : ℕ) (bs : List ℕ) (t : List (ℕ × ℕ)),
        h x = .hdict ((k, x) :: t) → h k = .hstr bs →
        encG h (fuel + 3) [] x = .error .selfRefDict) ∧
    (∀ fuel, encG tupleCycleHeap fuel [] 0 = .error .recursionDepth) := by
  refine ⟨?_, ?_, ?_, ?_, encG_tuple_cycle_depth⟩
  · intro h fuel ips x ids hmem hx
    simp [encG, hx, hmem]
  · intro h fuel ips x es hmem hx
    simp [encG, hx, hmem]
  · intro h fuel x t hx
    show encG h (fuel + 2 + 1) [] x = .error .selfRefList
    simp only [encG, hx]
    simp [encGItems, encG, hx]
  · intro h fuel x k bs t hx hk
    show encG h (fuel + 2 + 1) [] x = .error .selfRefDict
    simp only [encG, hx]
    simp [encGEntries, encG, hx, hk, encodeStringPy]

/-- C4 witness: the guards fire on the concrete one-object cycles
`a[0] = a` (list) and `d["a"] = d` (dict). -/
theorem c4_cycle_guards_witness :
    encG listCycleHeap 3 [] 0 = .error .selfRefList ∧
    encG dictCycleHeap 3 [] 0 = .error .selfRefDict :=
  ⟨c4_cycle_guards.2.2.1 listCycleHeap 0 0 [] rfl,
   c4_cycle_guards.2.2.2.1 dictCycleHeap 0 0 1 [97] [] rfl rfl⟩

/-! ### C5: string escaping -/

theorem hexCh_range (k : ℕ) : 32 ≤ (hexCh k).toNat ∧ (hexCh k).toNat ≤ 126 := by
  unfold hexCh
  split <;> decide

theorem char_ofNat_toNat (n : ℕ) (h : n < 55296) : (Char.ofNat n).toNat = n := by
  have hv : n.isValidChar := Or.inl h
  simp [Char.ofNat, hv, Char.toNat, Char.ofNatAux, UInt32.toNat, BitVec.toNat_ofNatLt]

theorem scanStr_plain_a (n : ℕ) (rest : List Char) :
    scanStr (List.replicate n 'a' ++ '"' :: rest) =
      some (List.replicate n 'a', false, false, false, rest) := by
  induction n with
  | zero => rfl
  | succ n ih =>
    rw [List.replicate_succ, List.cons_append]
    simp only [scanStr]
    rw [ih]
    simp [nulCh]

theorem scanStrEsc_slash_step (l cont rest : List Char)
    (h : scanStr l = some (cont, false, false, false, rest)) :
    scanStrEsc ('/' :: l) = some ('/' :: cont, false, false, true, rest) := by
  simp only [scanStrEsc]
  rw [h]
  rfl

theorem scanStr_bslash_step (l cont rest : List Char) (hu se su : Bool)
    (h : scanStrEsc l = some (cont, hu, se, su, rest)) :
    scanStr ('\\' :: l) = some ('\\' :: cont, hu, se, su, rest) := by
  simp only [scanStr]
  rw [h]
  rfl

/-- `decode_string` when the scan saw only a `\/` escape (no `\u`, no other
escape, no non-ASCII byte) but the content is at least 16384 bytes long:
the `alloca` guard skips the unescaping pass and the raw content is
returned as a byte string, backslash included. -/
theorem decodeString_raw_long (orig : ℕ) (t cont : List Char)
    (h : scanStr t = some (cont, false, false, true, []))
    (hlen : ¬cont.length < 16384) :
    decodeString orig false ('"' :: t) = .ok (.str (cont.map Char.toNat), []) := by
  simp only [decodeString]
  rw [h]
  simp [hlen]

/-- Content of the C8 failing input: a `\/` escape followed by 16382
copies of `a` — 16384 content bytes in total, so the `alloca` guard
`len < 16384` of cjson.c:169 skips the unescaping pass. -/
def c8content : List Char := '\\' :: '/' :: List.replicate 16382 'a'

/-- The C8 failing input: the 16384-byte content inside double quotes. -/
def c8input : List Char := '"' :: c8content ++ ['"']

theorem c8content_length : c8content.length = 16384 := by
  rw [show c8content = '\\' :: '/' :: List.replicate 16382 'a' from rfl,
      List.length_cons, List.length_cons, List.length_replicate]

theorem scanStr_c8 :
    scanStr (c8content ++ ['"']) = some (c8content, false, false, true, []) :=
  scanStr_bslash_step _ _ _ _ _ _
    (scanStrEsc_slash_step _ _ _ (scanStr_plain_a 16382 []))

theorem decodeString_c8 :
    decodeString c8input.length false c8input =
      .ok (.str (c8content.map Char.toNat), []) :=
  decodeString_raw_long _ _ _ scanStr_c8 (by rw [c8content_length]; omega)

/-- C8: the recognized `\/` escape is replaced by `/` only when the string
content is shorter than 16384 bytes (the `alloca` guard of cjson.c:169); at
16384 bytes the backslash-slash pair survives verbatim into the decoded
text, contradicting the claim's "regardless of the string's length".
First conjunct: the short-string behavior the claim describes, at a
concrete input; second: the decoder's value at the 16384-byte failing
input `c8input`, with the backslash retained in front of the slash;
third: that value is not the text with the single `/` the claim
promises. -/
theorem c8_slash_unescape_length_bug :
    decodeTop 30 false ['"', '\\', '/', 'a', '"'] = .ok (.str [47, 97]) ∧
    decodeString c8input.length false c8input =
      .ok (.str (92 :: 47 :: List.replicate 16382 97), []) ∧
    (92 : ℕ) :: 47 :: List.replicate 16382 97 ≠ 47 :: List.replicate 16382 97 := by
  refine ⟨rfl, ?_, ?_⟩
  · rw [decodeString_c8,
        show c8content = '\\' :: '/' :: List.replicate 16382 'a' from rfl,
        List.map_cons, List.map_cons, List.map_replicate]
    rfl
  · intro h
    have h2 := congrArg List.head? h
    rw [List.head?_cons, List.head?_cons] at h2
    exact absurd (Option.some.inj h2) (by decide)

/-! ### C2: the number grammar -/

/-- Sign part of the (amended) number grammar: empty, `-`, or `+`. -/
def signPartOk (sg : List Char) : Prop := sg = [] ∨ sg = ['-'] ∨ sg = ['+']

/-- Integer part of the claimed grammar: `0` alone, or a nonzero digit
followed by digits (never a leading zero before more digits). -/
def intPartOk (ip : List Char) : Prop :=
  ip = ['0'] ∨ (∃ d ds, ip = d :: ds ∧ d.isDigit ∧ d ≠ '0' ∧ ∀ c ∈ ds, c.isDigit)

/-- Fraction part of the claimed grammar: empty, or `.` followed by at
least one digit. -/
def fracPartOk (fp : List Char) : Prop :=
  fp = [] ∨ (∃ ds, fp = '.' :: ds ∧ ds ≠ [] ∧ ∀ c ∈ ds, c.isDigit)

/-- Exponent part of the claimed grammar: empty, or `e`/`E`, an optional
sign, and at least one digit. -/
def expPartOk (ep : List Char) : Prop :=
  ep = [] ∨ (∃ e sg ds, ep = e :: sg ++ ds ∧ (e = 'e' ∨ e = 'E') ∧
    (sg = [] ∨ sg = ['+'] ∨ sg = ['-']) ∧ ds ≠ [] ∧ ∀ c ∈ ds, c.isDigit)

/-- The complete JSON number grammar of the claim, amended to allow a
leading `+` as well as `-` (written from the claim's words as a full-string
match). -/
def numGrammar (s : List Char) : Prop :=
  ∃ sg ip fp ep, s = sg ++ ip ++ fp ++ ep ∧ signPartOk sg ∧ intPartOk ip ∧
    fracPartOk fp ∧ expPartOk ep

/-- A `.` or exponent mark was seen in the literal (the claim's purely
syntactic float-versus-int test). -/
def hasFloatMark (s : List Char) : Bool :=
  s.any fun c => c = '.' ∨ c = 'e' ∨ c = 'E'

/-- Characters that would extend a number literal: what the suffix after a
complete literal must not start with for the scanner to stop there. -/
def NoCont (rest : List Char) : Prop :=
  (headCh rest).isDigit = false ∧ headCh rest ≠ '.' ∧ headCh rest ≠ 'e' ∧
    headCh rest ≠ 'E'

theorem headCh_nil : headCh [] = nulCh := rfl

theorem headCh_cons (c : Char) (t : List Char) : headCh (c :: t) = c := rfl

theorem noCont_nil : NoCont [] := by
  refine ⟨rfl, ?_, ?_, ?_⟩ <;> decide

theorem headCh_cons_self (s : List Char) (h : s ≠ []) : s = headCh s :: s.tail := by
  cases s with
  | nil => exact absurd rfl h
  | cons c t => rfl

theorem takeWhile_digits_append (ds r : List Char) (h1 : ∀ c ∈ ds, c.isDigit)
    (h2 : (headCh r).isDigit = false) :
    (ds ++ r).takeWhile Char.isDigit = ds ∧ (ds ++ r).dropWhile Char.isDigit = r := by
  induction ds with
  | nil =>
    cases r with
    | nil => exact ⟨rfl, rfl⟩
    | cons c t =>
      rw [headCh_cons] at h2
      exact ⟨by simp [List.takeWhile_cons, h2], by simp [List.dropWhile_cons, h2]⟩
  | cons d ds ih =>
    have hd : d.isDigit := h1 d (List.mem_cons_self d ds)
    have ih2 := ih (fun c hc => h1 c (List.mem_cons_of_mem d hc))
    exact ⟨by rw [List.cons_append, List.takeWhile_cons, if_pos hd, ih2.1],
           by rw [List.cons_append, List.dropWhile_cons, if_pos hd, ih2.2]⟩

theorem digits_head_isDigit (ds r : List Char) (h : ds ≠ [])
    (hall : ∀ c ∈ ds, c.isDigit) : (headCh (ds ++ r)).isDigit = true := by
  cases ds with
  | nil => exact absurd rfl h
  | cons d t =>
    rw [List.cons_append, headCh_cons]
    exact hall d (List.mem_cons_self d t)

theorem digit_not_sign (c : Char) (h : c.isDigit = true) :
    ¬(c = '+' ∨ c = '-') := by
  intro hc
  rcases hc with rfl | rfl <;> exact absurd h (by decide)

/-- Head of `fp ++ ep ++ rest` is not a digit when the parts are
grammar-shaped and the rest is a stopper. -/
theorem fracExp_head_not_digit (fp ep rest : List Char)
    (hfp : fracPartOk fp) (hep : expPartOk ep) (hr : NoCont rest) :
    (headCh (fp ++ ep ++ rest)).isDigit = false := by
  rcases hfp with rfl | ⟨ds, rfl, _, _⟩
  · rcases hep with rfl | ⟨e, sg, ds, rfl, he, _, _, _⟩
    · simpa using hr.1
    · rcases he with rfl | rfl <;> rfl
  · rfl

/-- Head of `ep ++ rest` is not a `.` when the parts are grammar-shaped. -/
theorem exp_head_ne_dot (ep rest : List Char)
    (hep : expPartOk ep) (hr : NoCont rest) : headCh (ep ++ rest) ≠ '.' := by
  rcases hep with rfl | ⟨e, sg, ds, rfl, he, _, _, _⟩
  · simpa using hr.2.1
  · rcases he with rfl | rfl
    · exact (by decide : ('e' : Char) ≠ '.')
    · exact (by decide : ('E' : Char) ≠ '.')

theorem scanIntPart_ok (ip r : List Char) (hip : intPartOk ip)
    (hr : (headCh r).isDigit = false) : scanIntPart (ip ++ r) = some r := by
  rcases hip with rfl | ⟨d, ds, rfl, hd, hd0, hds⟩
  · unfold scanIntPart
    rw [List.singleton_append, headCh_cons, if_pos rfl, List.tail_cons, hr]
    rfl
  · unfold scanIntPart
    rw [List.cons_append, headCh_cons, if_neg hd0, hd, if_pos rfl,
        List.dropWhile_cons, if_pos hd, (takeWhile_digits_append ds r hds hr).2]

theorem scanFracPart_none (t2 : List Char) (h : headCh t2 ≠ '.') :
    scanFracPart t2 = some (false, t2) := by
  unfold scanFracPart
  rw [if_neg h]

theorem scanFracPart_ok (ds r : List Char) (h1 : ds ≠ []) (h2 : ∀ c ∈ ds, c.isDigit)
    (hr : (headCh r).isDigit = false) :
    scanFracPart ('.' :: (ds ++ r)) = some (true, r) := by
  unfold scanFracPart
  rw [headCh_cons, if_pos rfl, List.tail_cons, digits_head_isDigit ds r h1 h2,
      if_pos rfl, (takeWhile_digits_append ds r h2 hr).2]

theorem scanExpPart_none (isf : Bool) (t4 : List Char)
    (h1 : headCh t4 ≠ 'e') (h2 : headCh t4 ≠ 'E') :
    scanExpPart isf t4 = some (isf, t4) := by
  unfold scanExpPart
  rw [if_neg (by simp [h1, h2])]

theorem scanExpPart_ok (isf : Bool) (e : Char) (sg ds r : List Char)
    (he : e = 'e' ∨ e = 'E') (hsg : sg = [] ∨ sg = ['+'] ∨ sg = ['-'])
    (h1 : ds ≠ []) (h2 : ∀ c ∈ ds, c.isDigit)
    (hr : (headCh r).isDigit = false) :
    scanExpPart isf (e :: (sg ++ (ds ++ r))) = some (true, r) := by
  unfold scanExpPart
  rw [headCh_cons, if_pos he, List.tail_cons]
  rcases hsg with rfl | rfl | rfl
  · rw [List.nil_append,
        if_neg (digit_not_sign _ (digits_head_isDigit ds r h1 h2)),
        digits_head_isDigit ds r h1 h2, if_pos rfl,
        (takeWhile_digits_append ds r h2 hr).2]
  · rw [List.cons_append, headCh_cons, if_pos (Or.inl rfl), List.tail_cons,
        List.nil_append, digits_head_isDigit ds r h1 h2, if_pos rfl,
        (takeWhile_digits_append ds r h2 hr).2]
  · rw [List.cons_append, headCh_cons, if_pos (Or.inr rfl), List.tail_cons,
        List.nil_append, digits_head_isDigit ds r h1 h2, if_pos rfl,
        (takeWhile_digits_append ds r h2 hr).2]

/-- The number scan consumes exactly a grammar match and reports float
exactly when a fraction or exponent was present. -/
theorem numScan_grammar (ip fp ep rest : List Char)
    (hip : intPartOk ip) (hfp : fracPartOk fp) (hep : expPartOk ep)
    (hr : NoCont rest) :
    numScan (ip ++ (fp ++ (ep ++ rest))) = some (!fp.isEmpty || !ep.isEmpty, rest) := by
  unfold numScan
  rw [scanIntPart_ok ip _ hip
    (by
      have := fracExp_head_not_digit fp ep rest hfp hep hr
      simpa [List.append_assoc] using this)]
  rcases hfp with rfl | ⟨ds, rfl, h1, h2⟩
  · show (match scanFracPart ([] ++ (ep ++ rest)) with
          | Option.none => Option.none
          | some (isf, t4) => scanExpPart isf t4) = _
    rw [List.nil_append, scanFracPart_none _ (exp_head_ne_dot ep rest hep hr)]
    show scanExpPart false (ep ++ rest) = _
    rcases hep with rfl | ⟨e, sg, eds, rfl, he, hsg, h3, h4⟩
    · rw [List.nil_append, scanExpPart_none false rest hr.2.2.1 hr.2.2.2]
      rfl
    · simpa [List.append_assoc] using
        scanExpPart_ok false e sg eds rest he hsg h3 h4 hr.1
  · show (match scanFracPart ('.' :: (ds ++ (ep ++ rest))) with
          | Option.none => Option.none
          | some (isf, t4) => scanExpPart isf t4) = _
    rw [scanFracPart_ok ds (ep ++ rest) h1 h2
          (fracExp_head_not_digit [] ep rest (Or.inl rfl) hep hr)]
    show scanExpPart true (ep ++ rest) = _
    rcases hep with rfl | ⟨e, sg, eds, rfl, he, hsg, h3, h4⟩
    · rw [List.nil_append, scanExpPart_none true rest hr.2.2.1 hr.2.2.2]
      rfl
    · simpa [List.append_assoc] using
        scanExpPart_ok true e sg eds rest he hsg h3 h4 hr.1

theorem headCh_dropWhile_digits (l : List Char) :
    (headCh (l.dropWhile Char.isDigit)).isDigit = false := by
  induction l with
  | nil => decide
  | cons c t ih =>
    by_cases hc : c.isDigit = true
    · simpa [List.dropWhile_cons, hc] using ih
    · simp only [List.dropWhile_cons, if_neg hc, headCh_cons]
      exact Bool.eq_false_iff.mpr hc

theorem digits_head_isDigit' (ds : List Char) (h : ds ≠ [])
    (hall : ∀ c ∈ ds, c.isDigit) : (headCh ds).isDigit = true := by
  have := digits_head_isDigit ds [] h hall
  simpa using this

/-- Inversion of the integer-part phase: a successful scan peels off a
grammar-correct integer part and stops before a non-digit. -/
theorem scanIntPart_inv (s1 t2 : List Char) (h : scanIntPart s1 = some t2) :
    ∃ ip, s1 = ip ++ t2 ∧ intPartOk ip ∧ (headCh t2).isDigit = false := by
  unfold scanIntPart at h
  by_cases h0 : headCh s1 = '0'
  · rw [if_pos h0] at h
    by_cases hd : (headCh s1.tail).isDigit = true
    · rw [if_pos hd] at h
      exact absurd h (by simp)
    · rw [if_neg hd] at h
      injection h with ht
      have hne : s1 ≠ [] := by
        intro he
        rw [he] at h0
        exact absurd h0 (by decide)
      refine ⟨['0'], ?_, Or.inl rfl, ?_⟩
      · rw [← ht, List.singleton_append]
        conv_lhs => rw [headCh_cons_self s1 hne, h0]
      · rw [← ht]
        exact Bool.eq_false_iff.mpr hd
  · rw [if_neg h0] at h
    by_cases hd : (headCh s1).isDigit = true
    · rw [if_pos hd] at h
      injection h with ht
      have hne : s1 ≠ [] := by
        intro he
        rw [he] at hd
        exact absurd hd (by decide)
      obtain ⟨c, t, rfl⟩ := List.exists_cons_of_ne_nil hne
      rw [headCh_cons] at hd h0
      refine ⟨(c :: t).takeWhile Char.isDigit, ?_, ?_, ?_⟩
      · rw [← ht, List.takeWhile_append_dropWhile]
      · right
        refine ⟨c, t.takeWhile Char.isDigit, ?_, hd, h0, ?_⟩
        · simp [List.takeWhile_cons, hd]
        · intro x hx
          exact List.mem_takeWhile_imp hx
      · rw [← ht]
        exact headCh_dropWhile_digits (c :: t)
    · rw [if_neg hd] at h
      exact absurd h (by simp)

/-- Inversion of the fraction phase: it peels off an (optionally empty)
grammar-correct fraction part and reports float iff it was nonempty. -/
theorem scanFracPart_inv (t2 t4 : List Char) (isf : Bool)
    (h : scanFracPart t2 = some (isf, t4)) :
    ∃ fp, t2 = fp ++ t4 ∧ fracPartOk fp ∧ isf = !fp.isEmpty := by
  unfold scanFracPart at h
  by_cases h0 : headCh t2 = '.'
  · rw [if_pos h0] at h
    by_cases hd : (headCh t2.tail).isDigit = true
    · rw [if_pos hd] at h
      injection h with hp
      injection hp with h1 h2
      have hne : t2 ≠ [] := by
        intro he
        rw [he] at h0
        exact absurd h0 (by decide)
      have hne2 : t2.tail.takeWhile Char.isDigit ≠ [] := by
        have hne3 : t2.tail ≠ [] := by
          intro he
          rw [he] at hd
          exact absurd hd (by decide)
        obtain ⟨c, t, hct⟩ := List.exists_cons_of_ne_nil hne3
        rw [hct] at hd ⊢
        rw [headCh_cons] at hd
        simp [List.takeWhile_cons, hd]
      refine ⟨'.' :: t2.tail.takeWhile Char.isDigit, ?_, ?_, ?_⟩
      · rw [List.cons_append, ← h2, List.takeWhile_append_dropWhile]
        conv_lhs => rw [headCh_cons_self t2 hne, h0]
      · exact Or.inr ⟨t2.tail.takeWhile Char.isDigit, rfl, hne2,
          fun x hx => List.mem_takeWhile_imp hx⟩
      · rw [← h1]
        rfl
    · rw [if_neg hd] at h
      exact absurd h (by simp)
  · rw [if_neg h0] at h
    injection h with hp
    injection hp with h1 h2
    exact ⟨[], by rw [← h2, List.nil_append], Or.inl rfl, by rw [← h1]; rfl⟩

/-- Inversion of the exponent phase: it peels off an (optionally empty)
grammar-correct exponent part and reports float if it was nonempty. -/
theorem scanExpPart_inv (isf isf2 : Bool) (t4 rest : List Char)
    (h : scanExpPart isf t4 = some (isf2, rest)) :
    ∃ ep, t4 = ep ++ rest ∧ expPartOk ep ∧ isf2 = (isf || !ep.isEmpty) := by
  by_cases he : headCh t4 = 'e' ∨ headCh t4 = 'E'
  · have hne : t4 ≠ [] := by
      intro h'
      rw [h'] at he
      rcases he with he | he <;> exact absurd he (by decide)
    obtain ⟨c1, t1, rfl⟩ := List.exists_cons_of_ne_nil hne
    rw [headCh_cons] at he
    unfold scanExpPart at h
    rw [headCh_cons, if_pos he, List.tail_cons] at h
    by_cases hs : headCh t1 = '+' ∨ headCh t1 = '-'
    · have hne2 : t1 ≠ [] := by
        intro h'
        rw [h'] at hs
        rcases hs with hs | hs <;> exact absurd hs (by decide)
      obtain ⟨c2, t2, rfl⟩ := List.exists_cons_of_ne_nil hne2
      rw [headCh_cons] at hs
      rw [headCh_cons, List.tail_cons] at h
      rw [if_pos hs] at h
      by_cases hd : (headCh t2).isDigit = true
      · rw [if_pos hd] at h
        injection h with hp
        injection hp with h1 h2
        have hne3 : t2.takeWhile Char.isDigit ≠ [] := by
          have hne4 : t2 ≠ [] := by
            intro h'
            rw [h'] at hd
            exact absurd hd (by decide)
          obtain ⟨d, t3, hct⟩ := List.exists_cons_of_ne_nil hne4
          rw [hct] at hd ⊢
          rw [headCh_cons] at hd
          simp [List.takeWhile_cons, hd]
        refine ⟨c1 :: [c2] ++ t2.takeWhile Char.isDigit, ?_, ?_, ?_⟩
        · rw [← h2]
          conv_lhs => rw [← List.takeWhile_append_dropWhile Char.isDigit t2]
          simp
        · right
          refine ⟨c1, [c2], t2.takeWhile Char.isDigit, rfl, he, ?_, hne3,
            fun x hx => List.mem_takeWhile_imp hx⟩
          rcases hs with rfl | rfl
          · exact Or.inr (Or.inl rfl)
          · exact Or.inr (Or.inr rfl)
        · rw [← h1]
          simp
      · rw [if_neg hd] at h
        exact absurd h (by simp)
    · rw [if_neg hs] at h
      by_cases hd : (headCh t1).isDigit = true
      · rw [if_pos hd] at h
        injection h with hp
        injection hp with h1 h2
        have hne3 : t1.takeWhile Char.isDigit ≠ [] := by
          have hne4 : t1 ≠ [] := by
            intro h'
            rw [h'] at hd
            exact absurd hd (by decide)
          obtain ⟨d, t3, hct⟩ := List.exists_cons_of_ne_nil hne4
          rw [hct] at hd ⊢
          rw [headCh_cons] at hd
          simp [List.takeWhile_cons, hd]
        refine ⟨c1 :: [] ++ t1.takeWhile Char.isDigit, ?_, ?_, ?_⟩
        · rw [← h2]
          conv_lhs => rw [← List.takeWhile_append_dropWhile Char.isDigit t1]
          simp
        · exact Or.inr ⟨c1, [], t1.takeWhile Char.isDigit, rfl, he, Or.inl rfl,
            hne3, fun x hx => List.mem_takeWhile_imp hx⟩
        · rw [← h1]
          simp
      · rw [if_neg hd] at h
        exact absurd h (by simp)
  · unfold scanExpPart at h
    rw [if_neg he] at h
    injection h with hp
    injection hp with h1 h2
    exact ⟨[], by rw [← h2, List.nil_append], Or.inl rfl, by rw [← h1]; simp⟩

/-- Inversion of the whole number scan: a success decomposes the input into
grammar-correct parts followed by the unconsumed rest, the float flag set
exactly when a fraction or exponent part was present. -/
theorem numScan_inv (s1 rest : List Char) (isf : Bool)
    (h : numScan s1 = some (isf, rest)) :
    ∃ ip fp ep, s1 = ip ++ fp ++ ep ++ rest ∧ intPartOk ip ∧ fracPartOk fp ∧
      expPartOk ep ∧ isf = (!fp.isEmpty || !ep.isEmpty) := by
  unfold numScan at h
  rcases h2 : scanIntPart s1 with _ | t2
  · rw [h2] at h
    replace h : (Option.none : Option (Bool × List Char)) = some (isf, rest) := h
    exact absurd h (by simp)
  · rw [h2] at h
    replace h : (match scanFracPart t2 with
        | Option.none => Option.none
        | some (isf, t4) => scanExpPart isf t4) = some (isf, rest) := h
    rcases h3 : scanFracPart t2 with _ | ⟨isf1, t4⟩
    · rw [h3] at h
      replace h : (Option.none : Option (Bool × List Char)) = some (isf, rest) := h
      exact absurd h (by simp)
    · rw [h3] at h
      replace h : scanExpPart isf1 t4 = some (isf, rest) := h
      obtain ⟨ip, hs1, hip, -⟩ := scanIntPart_inv s1 t2 h2
      obtain ⟨fp, ht2, hfp, hisf1⟩ := scanFracPart_inv t2 t4 isf1 h3
      obtain ⟨ep, ht4, hep, hisf⟩ := scanExpPart_inv isf1 isf t4 rest h
      subst hs1
      subst ht2
      subst ht4
      refine ⟨ip, fp, ep, by simp [List.append_assoc], hip, hfp, hep, ?_⟩
      rw [hisf, hisf1]

theorem intPart_digits (ip : List Char) (h : intPartOk ip) :
    ip ≠ [] ∧ ∀ c ∈ ip, c.isDigit := by
  rcases h with rfl | ⟨d, ds, rfl, hd, -, hds⟩
  · refine ⟨by simp, ?_⟩
    intro c hc
    rw [List.mem_singleton] at hc
    rw [hc]
    decide
  · refine ⟨by simp, ?_⟩
    intro c hc
    rcases List.mem_cons.mp hc with rfl | hc
    · exact hd
    · exact hds c hc

theorem exp_head_not_digit (ep : List Char) (h : expPartOk ep) :
    (headCh ep).isDigit = false := by
  rcases h with rfl | ⟨e, sg, ds, rfl, he, -, -, -⟩
  · decide
  · rcases he with rfl | rfl
    · show ('e' : Char).isDigit = false
      decide
    · show ('E' : Char).isDigit = false
      decide

/-- `PyFloat_FromString`'s exponent phase succeeds on any grammar-correct
exponent part. -/
theorem floatExpPhase_exists (b : ℚ) (ep : List Char) (hep : expPartOk ep) :
    ∃ q, floatExpPhase b ep = some q := by
  rcases hep with rfl | ⟨e, sg, ds, rfl, he, hsg, h1, h2⟩
  · refine ⟨b, ?_⟩
    unfold floatExpPhase
    rw [if_neg (by decide), if_pos rfl]
  · have h3 : ds.takeWhile Char.isDigit = ds := by
      have := (takeWhile_digits_append ds [] h2 (by decide)).1
      simpa using this
    have h4 : ds.dropWhile Char.isDigit = [] := by
      have := (takeWhile_digits_append ds [] h2 (by decide)).2
      simpa using this
    have hd : (headCh ds).isDigit = true := digits_head_isDigit' ds h1 h2
    rcases hsg with rfl | rfl | rfl
    · refine ⟨b * (10 : ℚ) ^ (digitsVal ds : ℕ), ?_⟩
      show floatExpPhase b (e :: ds) = _
      unfold floatExpPhase
      rw [headCh_cons, if_pos he, List.tail_cons,
          if_neg (digit_not_sign _ hd), if_neg (by rw [h3, h4]; simp [h1]), h3]
    · refine ⟨b * (10 : ℚ) ^ ((1 : ℤ) * (digitsVal ds : ℕ)), ?_⟩
      show floatExpPhase b (e :: '+' :: ds) = _
      unfold floatExpPhase
      rw [headCh_cons, if_pos he, List.tail_cons, headCh_cons,
          if_pos (Or.inl rfl), List.tail_cons,
          if_neg (by rw [h3, h4]; simp [h1]), if_neg (by decide), h3]
    · refine ⟨b * (10 : ℚ) ^ ((-1 : ℤ) * (digitsVal ds : ℕ)), ?_⟩
      show floatExpPhase b (e :: '-' :: ds) = _
      unfold floatExpPhase
      rw [headCh_cons, if_pos he, List.tail_cons, headCh_cons,
          if_pos (Or.inr rfl), List.tail_cons,
          if_neg (by rw [h3, h4]; simp [h1]), if_pos rfl, h3]

/-- The fraction phase of the float conversion succeeds on grammar-correct
fraction and exponent parts. -/
theorem floatFracPhase_exists (b : ℚ) (fp ep : List Char)
    (hfp : fracPartOk fp) (hep : expPartOk ep) :
    ∃ q, floatFracPhase b (fp ++ ep) = some q := by
  rcases hfp with rfl | ⟨ds, rfl, h1, h2⟩
  · rw [List.nil_append]
    unfold floatFracPhase
    rw [if_neg (by
      have := exp_head_ne_dot ep [] hep noCont_nil
      simpa using this)]
    exact floatExpPhase_exists b ep hep
  · have hd : (headCh ep).isDigit = false := exp_head_not_digit ep hep
    have htw := takeWhile_digits_append ds ep h2 hd
    show ∃ q, floatFracPhase b ('.' :: (ds ++ ep)) = some q
    unfold floatFracPhase
    rw [headCh_cons, if_pos rfl, List.tail_cons, htw.1, htw.2]
    exact floatExpPhase_exists _ ep hep

/-- The whole strtod-style float conversion succeeds on any unsigned
grammar-correct literal. -/
theorem floatBody_exists (ip fp ep : List Char)
    (hip : intPartOk ip) (hfp : fracPartOk fp) (hep : expPartOk ep) :
    ∃ q, floatBody (ip ++ (fp ++ ep)) = some q := by
  obtain ⟨hne, hdig⟩ := intPart_digits ip hip
  have hfe : (headCh (fp ++ ep)).isDigit = false := by
    have := fracExp_head_not_digit fp ep [] hfp hep noCont_nil
    simpa using this
  have htw := takeWhile_digits_append ip (fp ++ ep) hdig hfe
  unfold floatBody
  rw [htw.1, htw.2, if_neg hne]
  exact floatFracPhase_exists _ fp ep hfp hep

/-- The host float conversion succeeds on any grammar-correct literal. -/
theorem pyFloatFromList_exists (sg ip fp ep : List Char)
    (hsg : signPartOk sg) (hip : intPartOk ip) (hfp : fracPartOk fp)
    (hep : expPartOk ep) :
    ∃ q, pyFloatFromList (sg ++ (ip ++ (fp ++ ep))) = some q := by
  obtain ⟨hne, hdig⟩ := intPart_digits ip hip
  have hd0 : (headCh (ip ++ (fp ++ ep))).isDigit = true :=
    digits_head_isDigit ip _ hne hdig
  rcases hsg with rfl | rfl | rfl
  · rw [List.nil_append]
    unfold pyFloatFromList
    rw [if_neg (fun hc => digit_not_sign _ hd0 (Or.inr hc)),
        if_neg (fun hc => digit_not_sign _ hd0 (Or.inl hc))]
    exact floatBody_exists ip fp ep hip hfp hep
  · show ∃ q, pyFloatFromList ('-' :: (ip ++ (fp ++ ep))) = some q
    unfold pyFloatFromList
    rw [headCh_cons, if_pos rfl, List.tail_cons]
    obtain ⟨q, hq⟩ := floatBody_exists ip fp ep hip hfp hep
    refine ⟨-q, ?_⟩
    rw [hq]
    rfl
  · show ∃ q, pyFloatFromList ('+' :: (ip ++ (fp ++ ep))) = some q
    unfold pyFloatFromList
    rw [headCh_cons, if_neg (by decide), if_pos rfl, List.tail_cons]
    exact floatBody_exists ip fp ep hip hfp hep

/-- The host integer conversion succeeds on any grammar-correct literal
without fraction or exponent. -/
theorem pyIntFromList_exists (sg ip : List Char) (hsg : signPartOk sg)
    (hip : intPartOk ip) : ∃ n, pyIntFromList (sg ++ ip) = some n := by
  obtain ⟨hne, hdig⟩ := intPart_digits ip hip
  have hall : ip.all Char.isDigit = true := List.all_eq_true.mpr hdig
  have hd0 : (headCh ip).isDigit = true := digits_head_isDigit' ip hne hdig
  rcases hsg with rfl | rfl | rfl
  · rw [List.nil_append]
    unfold pyIntFromList
    rw [if_neg (fun hc => digit_not_sign _ hd0 (Or.inr hc)),
        if_neg (fun hc => digit_not_sign _ hd0 (Or.inl hc)),
        if_pos ⟨hne, hall⟩]
    exact ⟨_, rfl⟩
  · show ∃ n, pyIntFromList ('-' :: ip) = some n
    unfold pyIntFromList
    rw [headCh_cons, if_pos rfl, List.tail_cons, if_pos ⟨hne, hall⟩]
    exact ⟨_, rfl⟩
  · show ∃ n, pyIntFromList ('+' :: ip) = some n
    unfold pyIntFromList
    rw [headCh_cons, if_neg (by decide), if_pos rfl, List.tail_cons,
        if_pos ⟨hne, hall⟩]
    exact ⟨_, rfl⟩

theorem hasFloatMark_append (a b : List Char) :
    hasFloatMark (a ++ b) = (hasFloatMark a || hasFloatMark b) := by
  unfold hasFloatMark
  exact List.any_append

theorem digits_no_mark (l : List Char) (h : ∀ c ∈ l, c.isDigit) :
    hasFloatMark l = false := by
  unfold hasFloatMark
  rw [List.any_eq_false]
  intro c hc hm
  have hd := h c hc
  rcases of_decide_eq_true hm with rfl | rfl | rfl <;> exact absurd hd (by decide)

/-- On a grammar decomposition the float mark is seen exactly when the
fraction or exponent part is nonempty. -/
theorem hasFloatMark_parts (sg ip fp ep : List Char) (hsg : signPartOk sg)
    (hip : intPartOk ip) (hfp : fracPartOk fp) (hep : expPartOk ep) :
    hasFloatMark (sg ++ ip ++ fp ++ ep) = (!fp.isEmpty || !ep.isEmpty) := by
  obtain ⟨-, hdig⟩ := intPart_digits ip hip
  have h1 : hasFloatMark sg = false := by
    rcases hsg with rfl | rfl | rfl <;> decide
  have h2 : hasFloatMark ip = false := digits_no_mark ip hdig
  have h3 : hasFloatMark fp = !fp.isEmpty := by
    rcases hfp with rfl | ⟨ds, rfl, -, -⟩
    · rfl
    · simp [hasFloatMark]
  have h4 : hasFloatMark ep = !ep.isEmpty := by
    rcases hep with rfl | ⟨e, sg', ds, rfl, he, -, -, -⟩
    · rfl
    · rcases he with rfl | rfl <;> simp [hasFloatMark]
  rw [hasFloatMark_append, hasFloatMark_append, hasFloatMark_append,
      h1, h2, h3, h4]
  simp

/-- `decode_number` accepts every complete grammar-correct literal. -/
theorem decodeNumber_accepts (orig : ℕ) (s : List Char) (h : numGrammar s) :
    ∃ v, decodeNumber orig s = Except.ok (v, []) := by
  obtain ⟨sg, ip, fp, ep, rfl, hsg, hip, hfp, hep⟩ := h
  obtain ⟨hne, hdig⟩ := intPart_digits ip hip
  have hd0 : (headCh (ip ++ (fp ++ ep))).isDigit = true :=
    digits_head_isDigit ip _ hne hdig
  have hscan : numScan (ip ++ (fp ++ ep)) =
      some ((!fp.isEmpty || !ep.isEmpty), []) := by
    have := numScan_grammar ip fp ep [] hip hfp hep noCont_nil
    simpa [List.append_assoc] using this
  rcases hb : (!fp.isEmpty || !ep.isEmpty) with _ | _
  · -- integer literal: no fraction, no exponent
    rw [hb] at hscan
    have hfe : fp = [] ∧ ep = [] := by
      rcases Bool.or_eq_false_iff.mp hb with ⟨ha, hbb⟩
      rw [Bool.not_eq_false'] at ha hbb
      exact ⟨List.isEmpty_iff.mp ha, List.isEmpty_iff.mp hbb⟩
    obtain ⟨rfl, rfl⟩ := hfe
    obtain ⟨n, hn⟩ := pyIntFromList_exists sg ip hsg hip
    rcases hsg with rfl | rfl | rfl
    · simp only [List.nil_append, List.append_nil] at hscan hn ⊢
      unfold decodeNumber
      rw [if_neg (fun hc => digit_not_sign _ (by simpa using hd0) hc.symm), hscan]
      show ∃ v, (match pyIntFromList (ip.take (ip.length - 0)) with
        | some n => Except.ok (PyObject.int n, ([] : List Char))
        | Option.none =>
            Except.error (DecErr.invalidNumber (orig - ip.length))) =
          Except.ok (v, [])
      rw [Nat.sub_zero, List.take_length, hn]
      exact ⟨_, rfl⟩
    · simp only [List.append_nil] at hscan hn ⊢
      show ∃ v, decodeNumber orig ('-' :: ip) = Except.ok (v, [])
      unfold decodeNumber
      rw [headCh_cons, if_pos (Or.inl rfl), List.tail_cons, hscan]
      show ∃ v, (match pyIntFromList (('-' :: ip).take (('-' :: ip).length - 0)) with
        | some n => Except.ok (PyObject.int n, ([] : List Char))
        | Option.none =>
            Except.error (DecErr.invalidNumber (orig - ('-' :: ip).length))) =
          Except.ok (v, [])
      rw [Nat.sub_zero, List.take_length]
      rw [show ('-' :: ip) = ['-'] ++ ip from rfl, hn]
      exact ⟨_, rfl⟩
    · simp only [List.append_nil] at hscan hn ⊢
      show ∃ v, decodeNumber orig ('+' :: ip) = Except.ok (v, [])
      unfold decodeNumber
      rw [headCh_cons, if_pos (Or.inr rfl), List.tail_cons, hscan]
      show ∃ v, (match pyIntFromList (('+' :: ip).take (('+' :: ip).length - 0)) with
        | some n => Except.ok (PyObject.int n, ([] : List Char))
        | Option.none =>
            Except.error (DecErr.invalidNumber (orig - ('+' :: ip).length))) =
          Except.ok (v, [])
      rw [Nat.sub_zero, List.take_length]
      rw [show ('+' :: ip) = ['+'] ++ ip from rfl, hn]
      exact ⟨_, rfl⟩
  · -- a fraction or exponent was present: float literal
    rw [hb] at hscan
    obtain ⟨q, hq⟩ := pyFloatFromList_exists sg ip fp ep hsg hip hfp hep
    rcases hsg with rfl | rfl | rfl
    · simp only [List.nil_append] at hq ⊢
      simp only [List.append_assoc]
      unfold decodeNumber
      rw [if_neg (fun hc => digit_not_sign _ hd0 hc.symm), hscan]
      show ∃ v, (match pyFloatFromList
          ((ip ++ (fp ++ ep)).take ((ip ++ (fp ++ ep)).length - 0)) with
        | some q => Except.ok (PyObject.float (JFloat.finite q), ([] : List Char))
        | Option.none =>
            Except.error (DecErr.invalidNumber (orig - (ip ++ (fp ++ ep)).length))) =
          Except.ok (v, [])
      rw [Nat.sub_zero, List.take_length, hq]
      exact ⟨_, rfl⟩
    · simp only [List.append_assoc]
      show ∃ v, decodeNumber orig ('-' :: (ip ++ (fp ++ ep))) = Except.ok (v, [])
      unfold decodeNumber
      rw [headCh_cons, if_pos (Or.inl rfl), List.tail_cons, hscan]
      show ∃ v, (match pyFloatFromList
          (('-' :: (ip ++ (fp ++ ep))).take
            (('-' :: (ip ++ (fp ++ ep))).length - 0)) with
        | some q => Except.ok (PyObject.float (JFloat.finite q), ([] : List Char))
        | Option.none =>
            Except.error
              (DecErr.invalidNumber (orig - ('-' :: (ip ++ (fp ++ ep))).length))) =
          Except.ok (v, [])
      rw [Nat.sub_zero, List.take_length]
      rw [show ('-' :: (ip ++ (fp ++ ep))) = ['-'] ++ (ip ++ (fp ++ ep)) from rfl, hq]
      exact ⟨_, rfl⟩
    · simp only [List.append_assoc]
      show ∃ v, decodeNumber orig ('+' :: (ip ++ (fp ++ ep))) = Except.ok (v, [])
      unfold decodeNumber
      rw [headCh_cons, if_pos (Or.inr rfl), List.tail_cons, hscan]
      show ∃ v, (match pyFloatFromList
          (('+' :: (ip ++ (fp ++ ep))).take
            (('+' :: (ip ++ (fp ++ ep))).length - 0)) with
        | some q => Except.ok (PyObject.float (JFloat.finite q), ([] : List Char))
        | Option.none =>
            Except.error
              (DecErr.invalidNumber (orig - ('+' :: (ip ++ (fp ++ ep))).length))) =
          Except.ok (v, [])
      rw [Nat.sub_zero, List.take_length]
      rw [show ('+' :: (ip ++ (fp ++ ep))) = ['+'] ++ (ip ++ (fp ++ ep)) from rfl, hq]
      exact ⟨_, rfl⟩

theorem numValueShape (isf : Bool) (v : PyObject) (m : Bool)
    (hv : (isf = true ∧ ∃ q, v = PyObject.float (JFloat.finite q)) ∨
          (isf = false ∧ ∃ n, v = PyObject.int n))
    (hm : m = isf) :
    ((∃ q, v = PyObject.float (JFloat.finite q)) ↔ m = true) ∧
      ((∃ n, v = PyObject.int n) ↔ m = false) := by
  subst hm
  rcases hv with ⟨rfl, q, rfl⟩ | ⟨rfl, n, rfl⟩
  · refine ⟨⟨fun _ => rfl, fun _ => ⟨q, rfl⟩⟩, ?_, ?_⟩
    · rintro ⟨n, hn⟩
      exact absurd hn (by simp)
    · intro h'
      exact absurd h' (by decide)
  · refine ⟨⟨?_, ?_⟩, fun _ => rfl, fun _ => ⟨n, rfl⟩⟩
    · rintro ⟨q, hq⟩
      exact absurd hq (by simp)
    · intro h'
      exact absurd h' (by decide)

/-- `decode_number` full-consumption success implies the input was a
grammar-correct literal, float exactly when a mark was seen. -/
theorem decodeNumber_inv (orig : ℕ) (s : List Char) (v : PyObject)
    (h : decodeNumber orig s = Except.ok (v, [])) :
    numGrammar s ∧
      ((∃ q, v = PyObject.float (JFloat.finite q)) ↔ hasFloatMark s = true) ∧
      ((∃ n, v = PyObject.int n) ↔ hasFloatMark s = false) := by
  unfold decodeNumber at h
  rcases hsc : numScan (if headCh s = '-' ∨ headCh s = '+' then s.tail else s)
    with _ | ⟨isf, rest⟩
  · rw [hsc] at h
    replace h : (Except.error (DecErr.invalidNumber (orig - s.length)) :
        Except DecErr (PyObject × List Char)) = Except.ok (v, []) := h
    exact absurd h (by simp)
  rw [hsc] at h
  replace h : (if isf then
      match pyFloatFromList (s.take (s.length - rest.length)) with
      | some q => Except.ok (PyObject.float (JFloat.finite q), rest)
      | Option.none => Except.error (DecErr.invalidNumber (orig - s.length))
    else
      match pyIntFromList (s.take (s.length - rest.length)) with
      | some n => Except.ok (PyObject.int n, rest)
      | Option.none => Except.error (DecErr.invalidNumber (orig - s.length))) =
      Except.ok (v, []) := h
  obtain ⟨ip, fp, ep, hdec, hip, hfp, hep, hisf⟩ := numScan_inv _ rest isf hsc
  have hkey : rest = [] ∧
      ((isf = true ∧ ∃ q, v = PyObject.float (JFloat.finite q)) ∨
       (isf = false ∧ ∃ n, v = PyObject.int n)) := by
    cases isf
    · rw [if_neg (by decide)] at h
      rcases hq : pyIntFromList (s.take (s.length - rest.length)) with _ | n
      · rw [hq] at h
        replace h : (Except.error (DecErr.invalidNumber (orig - s.length)) :
            Except DecErr (PyObject × List Char)) = Except.ok (v, []) := h
        exact absurd h (by simp)
      · rw [hq] at h
        replace h : (Except.ok (PyObject.int n, rest) :
            Except DecErr (PyObject × List Char)) = Except.ok (v, []) := h
        injection h with h'
        injection h' with h1 h2
        exact ⟨h2, Or.inr ⟨rfl, n, h1.symm⟩⟩
    · rw [if_pos rfl] at h
      rcases hq : pyFloatFromList (s.take (s.length - rest.length)) with _ | q
      · rw [hq] at h
        replace h : (Except.error (DecErr.invalidNumber (orig - s.length)) :
            Except DecErr (PyObject × List Char)) = Except.ok (v, []) := h
        exact absurd h (by simp)
      · rw [hq] at h
        replace h : (Except.ok (PyObject.float (JFloat.finite q), rest) :
            Except DecErr (PyObject × List Char)) = Except.ok (v, []) := h
        injection h with h'
        injection h' with h1 h2
        exact ⟨h2, Or.inl ⟨rfl, q, h1.symm⟩⟩
  obtain ⟨rfl, hv⟩ := hkey
  rw [List.append_nil] at hdec
  by_cases hsign : headCh s = '-' ∨ headCh s = '+'
  · rw [if_pos hsign] at hdec
    have hne : s ≠ [] := by
      intro h'
      rw [h'] at hsign
      rcases hsign with h'' | h'' <;> exact absurd h'' (by decide)
    obtain ⟨c, t, rfl⟩ := List.exists_cons_of_ne_nil hne
    rw [headCh_cons] at hsign
    rw [List.tail_cons] at hdec
    subst hdec
    have hsg : signPartOk [c] := by
      rcases hsign with rfl | rfl
      · exact Or.inr (Or.inl rfl)
      · exact Or.inr (Or.inr rfl)
    have hgr : numGrammar (c :: (ip ++ fp ++ ep)) :=
      ⟨[c], ip, fp, ep, by simp [List.append_assoc], hsg, hip, hfp, hep⟩
    have hm : hasFloatMark (c :: (ip ++ fp ++ ep)) = (!fp.isEmpty || !ep.isEmpty) := by
      have := hasFloatMark_parts [c] ip fp ep hsg hip hfp hep
      simpa [List.append_assoc] using this
    exact ⟨hgr, numValueShape isf v _ hv (hm.trans hisf.symm)⟩
  · rw [if_neg hsign] at hdec
    subst hdec
    have hgr : numGrammar (ip ++ fp ++ ep) :=
      ⟨[], ip, fp, ep, by simp, Or.inl rfl, hip, hfp, hep⟩
    have hm : hasFloatMark (ip ++ fp ++ ep) = (!fp.isEmpty || !ep.isEmpty) := by
      have := hasFloatMark_parts [] ip fp ep (Or.inl rfl) hip hfp hep
      simpa using this
    exact ⟨hgr, numValueShape isf v _ hv (hm.trans hisf.symm)⟩

/-- **C2.** Amended: `decode_number` accepts a numeric literal (consuming
all of it) exactly when it matches the JSON number grammar extended with
an optional leading `+` as well as `-`: optional sign, an integer part
that is `0` alone or a nonzero digit followed by digits, an optional `.`
followed by at least one digit, an optional exponent `(e|E)(+|-)?digits`;
the integer-versus-float decision is purely syntactic (float iff a `.` or
exponent mark was seen), and the other numeric-looking inputs named by the
claim — `-` alone, `01`, `1.`, `.5` — all fail with a `DecodeError`. -/
theorem c2_number_grammar (orig : ℕ) (s : List Char) :
    ((∃ v, decodeNumber orig s = Except.ok (v, [])) ↔ numGrammar s) ∧
    (∀ v, decodeNumber orig s = Except.ok (v, []) →
      ((∃ q, v = PyObject.float (JFloat.finite q)) ↔ hasFloatMark s = true) ∧
      ((∃ n, v = PyObject.int n) ↔ hasFloatMark s = false)) ∧
    decodeTop 10 false ['-'] = Except.error (DecErr.invalidNumber 0) ∧
    decodeTop 10 false ['0', '1'] = Except.error (DecErr.invalidNumber 0) ∧
    decodeTop 10 false ['1', '.'] = Except.error (DecErr.invalidNumber 0) ∧
    decodeTop 10 false ['.', '5'] = Except.error DecErr.cannotParseTop := by
  refine ⟨⟨?_, ?_⟩, ?_, rfl, rfl, rfl, rfl⟩
  · rintro ⟨v, hv⟩
    exact (decodeNumber_inv orig s v hv).1
  · exact decodeNumber_accepts orig s
  · intro v hv
    exact (decodeNumber_inv orig s v hv).2

theorem c2_number_grammar_witness :
    ∃ v, decodeNumber 2 ['4', '2'] = Except.ok (v, []) :=
  (c2_number_grammar 2 ['4', '2']).1.mpr
    ⟨[], ['4', '2'], [], [], rfl, Or.inl rfl,
      Or.inr ⟨'4', ['2'], rfl, by decide, by decide, by decide⟩,
      Or.inl rfl, Or.inl rfl⟩

/-- The claim says a literal with a leading `+` fails with a `DecodeError`;
in fact `decode("+1")` succeeds and returns the integer 1: `decode_json`
dispatches `+` to `decode_number` (cjson.c:583-591), whose scan skips the
sign (cjson.c:291-292), and `PyInt_FromString` accepts the signed slice. -/
theorem c2_plus_counterexample :
    decodeTop 10 false ['+', '1'] = Except.ok (PyObject.int 1) := rfl

/-! ### C6: trailing data -/

theorem scanStr_scanStrEsc_suffix (s : List Char) :
    (∀ r, scanStr s = some r → r.2.2.2.2 <:+ s) ∧
    (∀ r, scanStrEsc s = some r → r.2.2.2.2 <:+ s) := by
  induction s with
  | nil =>
    constructor <;> intro r h <;> exact absurd h (by simp [scanStr, scanStrEsc])
  | cons c t ih =>
    constructor
    · intro r h
      simp only [scanStr] at h
      split at h
      · exact absurd h (by simp)
      · split at h
        · split at h
          · exact absurd h (by simp)
          · rename_i cont hu se su rest heq
            injection h with h'
            rw [← h']
            exact (ih.2 _ heq).trans (List.suffix_cons c t)
        · split at h
          · injection h with h'
            rw [← h']
            exact List.suffix_cons c t
          · split at h
            · exact absurd h (by simp)
            · rename_i cont hu se su rest heq
              injection h with h'
              rw [← h']
              exact (ih.1 _ heq).trans (List.suffix_cons c t)
    · intro r h
      simp only [scanStrEsc] at h
      split at h
      · exact absurd h (by simp)
      · split at h
        · exact absurd h (by simp)
        · rename_i cont hu se su rest heq
          injection h with h'
          rw [← h']
          exact (ih.1 _ heq).trans (List.suffix_cons c t)

theorem decodeNull_suffix (orig : ℕ) (s : List Char) (v : PyObject)
    (rem : List Char) (h : decodeNull orig s = Except.ok (v, rem)) : rem <:+ s := by
  unfold decodeNull at h
  split at h
  · injection h with h'
    injection h' with h1 h2
    rw [← h2]
    exact List.drop_suffix 4 s
  · exact absurd h (by simp)

theorem decodeBool_suffix (orig : ℕ) (s : List Char) (v : PyObject)
    (rem : List Char) (h : decodeBool orig s = Except.ok (v, rem)) : rem <:+ s := by
  unfold decodeBool at h
  split at h
  · injection h with h'
    injection h' with h1 h2
    rw [← h2]
    exact List.drop_suffix 4 s
  · split at h
    · injection h with h'
      injection h' with h1 h2
      rw [← h2]
      exact List.drop_suffix 5 s
    · exact absurd h (by simp)

theorem decodeNan_suffix (orig : ℕ) (s : List Char) (v : PyObject)
    (rem : List Char) (h : decodeNan orig s = Except.ok (v, rem)) : rem <:+ s := by
  unfold decodeNan at h
  split at h
  · injection h with h'
    injection h' with h1 h2
    rw [← h2]
    exact List.drop_suffix 3 s
  · exact absurd h (by simp)

theorem decodeInf_suffix (orig : ℕ) (s : List Char) (v : PyObject)
    (rem : List Char) (h : decodeInf orig s = Except.ok (v, rem)) : rem <:+ s := by
  unfold decodeInf at h
  split at h
  · injection h with h'
    injection h' with h1 h2
    rw [← h2]
    exact List.drop_suffix 8 s
  · split at h
    · injection h with h'
      injection h' with h1 h2
      rw [← h2]
      exact List.drop_suffix 9 s
    · split at h
      · injection h with h'
        injection h' with h1 h2
        rw [← h2]
        exact List.drop_suffix 9 s
      · exact absurd h (by simp)

theorem decodeString_suffix (orig : ℕ) (allU : Bool) (s : List Char)
    (v : PyObject) (rem : List Char)
    (h : decodeString orig allU s = Except.ok (v, rem)) : rem <:+ s := by
  simp only [decodeString] at h
  split at h
  · rename_i t
    split at h
    · exact absurd h (by simp)
    · rename_i cont0 hu se su rest heq
      have hsf : rest <:+ t := (scanStr_scanStrEsc_suffix t).1 _ heq
      split at h
      · split at h
        · injection h with h'
          injection h' with h1 h2
          rw [← h2]
          exact hsf.trans (List.suffix_cons _ t)
        · exact absurd h (by simp)
      · split at h
        · split at h
          · injection h with h'
            injection h' with h1 h2
            rw [← h2]
            exact hsf.trans (List.suffix_cons _ t)
          · exact absurd h (by simp)
        · injection h with h'
          injection h' with h1 h2
          rw [← h2]
          exact hsf.trans (List.suffix_cons _ t)
  · exact absurd h (by simp)

theorem decodeNumber_suffix (orig : ℕ) (s : List Char) (v : PyObject)
    (rem : List Char) (h : decodeNumber orig s = Except.ok (v, rem)) :
    rem <:+ s := by
  unfold decodeNumber at h
  rcases hsc : numScan (if headCh s = '-' ∨ headCh s = '+' then s.tail else s)
    with _ | ⟨isf, rest⟩
  · rw [hsc] at h
    replace h : (Except.error (DecErr.invalidNumber (orig - s.length)) :
        Except DecErr (PyObject × List Char)) = Except.ok (v, rem) := h
    exact absurd h (by simp)
  rw [hsc] at h
  replace h : (if isf then
      match pyFloatFromList (s.take (s.length - rest.length)) with
      | some q => Except.ok (PyObject.float (JFloat.finite q), rest)
      | Option.none => Except.error (DecErr.invalidNumber (orig - s.length))
    else
      match pyIntFromList (s.take (s.length - rest.length)) with
      | some n => Except.ok (PyObject.int n, rest)
      | Option.none => Except.error (DecErr.invalidNumber (orig - s.length))) =
      Except.ok (v, rem) := h
  obtain ⟨ip, fp, ep, hdec, -, -, -, -⟩ := numScan_inv _ rest isf hsc
  have hrs : rest <:+ (if headCh s = '-' ∨ headCh s = '+' then s.tail else s) :=
    ⟨ip ++ (fp ++ ep), by rw [hdec]; simp [List.append_assoc]⟩
  have hrs2 : rest <:+ s := by
    by_cases hsign : headCh s = '-' ∨ headCh s = '+'
    · rw [if_pos hsign] at hrs
      exact hrs.trans (List.tail_suffix s)
    · rw [if_neg hsign] at hrs
      exact hrs
  have hrem : rem = rest := by
    cases isf
    · rw [if_neg (by decide)] at h
      split at h
      · injection h with h'
        injection h' with h1 h2
        exact h2.symm
      · exact absurd h (by simp)
    · rw [if_pos rfl] at h
      split at h
      · injection h with h'
        injection h' with h1 h2
        exact h2.symm
      · exact absurd h (by simp)
  rw [hrem]
  exact hrs2

/-- Every parser of the `decode_json` family returns a suffix of its input
as the unconsumed rest (the C `*next_ptr`/`ptr` always advances within the
buffer). -/
theorem decode_suffix (fuel : ℕ) :
    (∀ allU orig s v rem,
      decodeJson fuel allU orig s = Except.ok (v, rem) → rem <:+ s) ∧
    (∀ allU orig start st acc cur v rem,
      decodeArrLoop fuel allU orig start st acc cur = Except.ok (v, rem) →
        rem <:+ cur) ∧
    (∀ allU orig start st acc cur v rem,
      decodeObjLoop fuel allU orig start st acc cur = Except.ok (v, rem) →
        rem <:+ cur) ∧
    (∀ allU orig start acc cur v rem,
      decodeObjKey fuel allU orig start acc cur = Except.ok (v, rem) →
        rem <:+ cur) := by
  induction fuel with
  | zero =>
    refine ⟨?_, ?_, ?_, ?_⟩
    · intro allU orig s v rem h
      exact absurd h (by simp [decodeJson])
    · intro allU orig start st acc cur v rem h
      exact absurd h (by simp [decodeArrLoop])
    · intro allU orig start st acc cur v rem h
      exact absurd h (by simp [decodeObjLoop])
    · intro allU orig start acc cur v rem h
      exact absurd h (by simp [decodeObjKey])
  | succ fuel ih =>
    obtain ⟨ihJ, ihA, ihO, ihK⟩ := ih
    refine ⟨?_, ?_, ?_, ?_⟩
    · intro allU orig s v rem h
      have hsfx : skipWSl s <:+ s := List.dropWhile_suffix _
      simp only [decodeJson] at h
      split at h
      · exact absurd h (by simp)
      · rename_i c t heq
        have hct : (c :: t) <:+ s := by
          rw [← heq]
          exact hsfx
        have hts : t <:+ s := (List.suffix_cons c t).trans hct
        split at h
        · exact absurd h (by simp)
        · split at h
          · exact (ihO _ _ _ _ _ _ _ _ h).trans hts
          · split at h
            · exact (ihA _ _ _ _ _ _ _ _ h).trans hts
            · split at h
              · exact (decodeString_suffix _ _ _ _ _ h).trans hsfx
              · split at h
                · exact (decodeBool_suffix _ _ _ _ h).trans hsfx
                · split at h
                  · exact (decodeNull_suffix _ _ _ _ h).trans hsfx
                  · split at h
                    · exact (decodeNan_suffix _ _ _ _ h).trans hsfx
                    · split at h
                      · exact (decodeInf_suffix _ _ _ _ h).trans hsfx
                      · split at h
                        · split at h
                          · exact (decodeInf_suffix _ _ _ _ h).trans hsfx
                          · exact (decodeNumber_suffix _ _ _ _ h).trans hsfx
                        · split at h
                          · exact (decodeNumber_suffix _ _ _ _ h).trans hsfx
                          · exact absurd h (by simp)
    · intro allU orig start st acc cur v rem h
      have hsfx : skipWSl cur <:+ cur := List.dropWhile_suffix _
      simp only [decodeArrLoop] at h
      split at h
      · exact absurd h (by simp)
      · rename_i c t heq
        have hct : (c :: t) <:+ cur := by
          rw [← heq]
          exact hsfx
        have hts : t <:+ cur := (List.suffix_cons c t).trans hct
        split at h
        · exact absurd h (by simp)
        · split at h
          · -- itemOrClose
            split at h
            · injection h with h'
              injection h' with h1 h2
              rw [← h2]
              exact hts
            · split at h
              · exact absurd h (by simp)
              · split at h
                · exact absurd h (by simp)
                · rename_i v1 rem1 heq1
                  exact ((ihA _ _ _ _ _ _ _ _ h).trans
                    (ihJ _ _ _ _ _ heq1)).trans hsfx
          · -- item
            split at h
            · exact absurd h (by simp)
            · split at h
              · exact absurd h (by simp)
              · rename_i v1 rem1 heq1
                exact ((ihA _ _ _ _ _ _ _ _ h).trans
                  (ihJ _ _ _ _ _ heq1)).trans hsfx
          · -- commaOrClose
            split at h
            · injection h with h'
              injection h' with h1 h2
              rw [← h2]
              exact hts
            · split at h
              · exact (ihA _ _ _ _ _ _ _ _ h).trans hts
              · exact absurd h (by simp)
    · intro allU orig start st acc cur v rem h
      have hsfx : skipWSl cur <:+ cur := List.dropWhile_suffix _
      simp only [decodeObjLoop] at h
      split at h
      · exact absurd h (by simp)
      · rename_i c t heq
        have hct : (c :: t) <:+ cur := by
          rw [← heq]
          exact hsfx
        have hts : t <:+ cur := (List.suffix_cons c t).trans hct
        split at h
        · exact absurd h (by simp)
        · split at h
          · -- keyOrClose
            split at h
            · injection h with h'
              injection h' with h1 h2
              rw [← h2]
              exact hts
            · exact ihK _ _ _ _ _ _ _ h
          · -- key
            exact ihK _ _ _ _ _ _ _ h
          · -- commaOrClose
            split at h
            · injection h with h'
              injection h' with h1 h2
              rw [← h2]
              exact hts
            · split at h
              · exact (ihO _ _ _ _ _ _ _ _ h).trans hts
              · exact absurd h (by simp)
    · intro allU orig start acc cur v rem h
      have hsfx : skipWSl cur <:+ cur := List.dropWhile_suffix _
      simp only [decodeObjKey] at h
      split at h
      · exact absurd h (by simp)
      · split at h
        · exact absurd h (by simp)
        · rename_i k r1 heq1
          have hr1 : r1 <:+ cur := (ihJ _ _ _ _ _ heq1).trans hsfx
          split at h
          · exact absurd h (by simp)
          · split at h
            · exact absurd h (by simp)
            · split at h
              · exact absurd h (by simp)
              · rename_i v1 r4 heq2
                have hr3 : skipWSl (skipWSl r1).tail <:+ r1 :=
                  ((List.dropWhile_suffix _).trans
                    (List.tail_suffix _)).trans (List.dropWhile_suffix _)
                exact (((ihO _ _ _ _ _ _ _ _ h).trans
                  (ihJ _ _ _ _ _ heq2)).trans hr3).trans hr1

theorem suffix_eq_drop (l s : List Char) (h : l <:+ s) :
    l = s.drop (s.length - l.length) := by
  obtain ⟨t, rfl⟩ := h
  rw [List.length_append, Nat.add_sub_cancel, List.drop_left]

theorem headCh_skipWSl_not_space (l : List Char) :
    cSpace (headCh (skipWSl l)) = false := by
  unfold skipWSl
  induction l with
  | nil => decide
  | cons c t ih =>
    by_cases hc : cSpace c = true
    · simpa [List.dropWhile_cons, hc] using ih
    · simp only [List.dropWhile_cons, if_neg hc, headCh_cons]
      exact Bool.eq_false_iff.mpr hc

/-- **C6.** After the top-level value is parsed, `JSON_decode` skips
trailing whitespace and fails with the extra-data error at the 0-based
offset of the first offending byte whenever non-whitespace input remains:
the remaining text at the reported offset is exactly the whitespace-skipped
rest, whose first character is not whitespace; when only whitespace
remains, decoding succeeds.  In particular `decode("1 2")` fails with the
extra-data error at offset 2 and `decode("1")` returns the integer 1. -/
theorem c6_extra_data (fuel : ℕ) (allU : Bool) (s : List Char) (v : PyObject)
    (rem : List Char)
    (hnul : s.any (fun c => c = nulCh) = false)
    (hj : decodeJson fuel allU s.length s = Except.ok (v, rem)) :
    (skipWSl rem = [] → decodeTop fuel allU s = Except.ok v) ∧
    (skipWSl rem ≠ [] →
      decodeTop fuel allU s =
        Except.error (DecErr.extraData (s.length - (skipWSl rem).length)) ∧
      skipWSl rem = s.drop (s.length - (skipWSl rem).length) ∧
      cSpace (headCh (skipWSl rem)) = false) ∧
    decodeTop 10 false ['1', ' ', '2'] = Except.error (DecErr.extraData 2) ∧
    decodeTop 10 false ['1'] = Except.ok (PyObject.int 1) := by
  refine ⟨?_, ?_, rfl, rfl⟩
  · intro hws
    unfold decodeTop
    rw [if_neg (by simp [hnul]), hj]
    show (if skipWSl rem = [] then Except.ok v
      else Except.error (DecErr.extraData (s.length - (skipWSl rem).length))) =
        Except.ok v
    rw [if_pos hws]
  · intro hws
    refine ⟨?_, ?_, headCh_skipWSl_not_space rem⟩
    · unfold decodeTop
      rw [if_neg (by simp [hnul]), hj]
      show (if skipWSl rem = [] then Except.ok v
        else Except.error (DecErr.extraData (s.length - (skipWSl rem).length))) =
          Except.error (DecErr.extraData (s.length - (skipWSl rem).length))
      rw [if_neg hws]
    · exact suffix_eq_drop _ s
        ((List.dropWhile_suffix _).trans ((decode_suffix fuel).1 _ _ _ _ _ hj))

theorem c6_extra_data_witness :
    decodeTop 10 false ['1', ' ', '2'] = Except.error (DecErr.extraData 2) :=
  ((c6_extra_data 10 false ['1', ' ', '2'] (PyObject.int 1) [' ', '2']
    rfl rfl).2.1 (by decide)).1

/-! ### C9: empty value position in an object -/

/-- **C9.** When an object entry's value position is empty — the colon is
followed, after optional whitespace, immediately by `,` or `}` — the
`DictionaryKey` step fails with the expecting-property-value error carrying
the byte offset of that `,` or `}` character (the input at the reported
offset is exactly the remaining text starting with that character); in
particular `decode('\x7b"a":\x7d')` fails with the error at offset 5. -/
theorem c9_empty_value (fuel : ℕ) (allU : Bool) (s cur : List Char)
    (start : ℕ) (acc : List (PyObject × PyObject)) (k : PyObject)
    (r1 : List Char)
    (hcur : cur <:+ s)
    (hq : headCh (skipWSl cur) = '"')
    (hj : decodeJson fuel allU s.length (skipWSl cur) = Except.ok (k, r1))
    (hcolon : headCh (skipWSl r1) = ':')
    (hcm : headCh (skipWSl (skipWSl r1).tail) = ',' ∨
           headCh (skipWSl (skipWSl r1).tail) = Char.ofNat 125) :
    decodeObjKey (fuel + 1) allU s.length start acc cur =
      Except.error (DecErr.expectingPropValue
        (s.length - (skipWSl (skipWSl r1).tail).length)) ∧
    s.drop (s.length - (skipWSl (skipWSl r1).tail).length) =
      skipWSl (skipWSl r1).tail ∧
    decodeTop 10 false [Char.ofNat 123, '"', 'a', '"', ':', Char.ofNat 125] =
      Except.error (DecErr.expectingPropValue 5) := by
  refine ⟨?_, ?_, rfl⟩
  · simp only [decodeObjKey]
    rw [if_neg (not_not_intro hq), hj]
    show (if headCh (skipWSl r1) ≠ ':' then
        Except.error (DecErr.missingColon (s.length - (skipWSl r1).length))
      else if headCh (skipWSl (skipWSl r1).tail) = ',' ∨
          headCh (skipWSl (skipWSl r1).tail) = Char.ofNat 125 then
        Except.error (DecErr.expectingPropValue
          (s.length - (skipWSl (skipWSl r1).tail).length))
      else
        match decodeJson fuel allU s.length (skipWSl (skipWSl r1).tail) with
        | Except.error e => Except.error e
        | Except.ok (v, r4) =>
          decodeObjLoop fuel allU s.length start OState.commaOrClose
            (dictSet acc k v) r4) =
      Except.error (DecErr.expectingPropValue
        (s.length - (skipWSl (skipWSl r1).tail).length))
    rw [if_neg (not_not_intro hcolon), if_pos hcm]
  · refine (suffix_eq_drop _ s ?_).symm
    have h1 : r1 <:+ s :=
      ((decode_suffix fuel).1 _ _ _ _ _ hj).trans
        ((List.dropWhile_suffix _).trans hcur)
    exact ((List.dropWhile_suffix _).trans
      ((List.tail_suffix _).trans (List.dropWhile_suffix _))).trans h1

theorem c9_empty_value_witness :
    decodeObjKey 10 false 6 0 []
      [Char.ofNat 123, '"', 'a', '"', ':', Char.ofNat 125].tail =
      Except.error (DecErr.expectingPropValue 5) := by
  have h := c9_empty_value 9 false
    [Char.ofNat 123, '"', 'a', '"', ':', Char.ofNat 125]
    ['"', 'a', '"', ':', Char.ofNat 125] 0 [] (PyObject.str [97])
    [':', Char.ofNat 125]
    ⟨[Char.ofNat 123], rfl⟩ rfl rfl rfl (Or.inr rfl)
  exact h.1

/-! ### C7: the whitespace set -/

theorem decodeNull_ok_orig (orig orig' : ℕ) (s : List Char)
    (p : PyObject × List Char) (h : decodeNull orig s = Except.ok p) :
    decodeNull orig' s = Except.ok p := by
  unfold decodeNull at h ⊢
  by_cases hc : s.take 4 = ['n', 'u', 'l', 'l']
  · rw [if_pos hc] at h ⊢
    exact h
  · rw [if_neg hc] at h
    exact absurd h (by simp)

theorem decodeBool_ok_orig (orig orig' : ℕ) (s : List Char)
    (p : PyObject × List Char) (h : decodeBool orig s = Except.ok p) :
    decodeBool orig' s = Except.ok p := by
  unfold decodeBool at h ⊢
  by_cases hc : s.take 4 = ['t', 'r', 'u', 'e']
  · rw [if_pos hc] at h ⊢
    exact h
  · rw [if_neg hc] at h ⊢
    by_cases hc2 : s.take 5 = ['f', 'a', 'l', 's', 'e']
    · rw [if_pos hc2] at h ⊢
      exact h
    · rw [if_neg hc2] at h
      exact absurd h (by simp)

theorem decodeNan_ok_orig (orig orig' : ℕ) (s : List Char)
    (p : PyObject × List Char) (h : decodeNan orig s = Except.ok p) :
    decodeNan orig' s = Except.ok p := by
  unfold decodeNan at h ⊢
  by_cases hc : s.take 3 = ['N', 'a', 'N']
  · rw [if_pos hc] at h ⊢
    exact h
  · rw [if_neg hc] at h
    exact absurd h (by simp)

theorem decodeInf_ok_orig (orig orig' : ℕ) (s : List Char)
    (p : PyObject × List Char) (h : decodeInf orig s = Except.ok p) :
    decodeInf orig' s = Except.ok p := by
  unfold decodeInf at h ⊢
  by_cases hc : s.take 8 = ['I', 'n', 'f', 'i', 'n', 'i', 't', 'y']
  · rw [if_pos hc] at h ⊢
    exact h
  · rw [if_neg hc] at h ⊢
    by_cases hc2 : s.take 9 = ['+', 'I', 'n', 'f', 'i', 'n', 'i', 't', 'y']
    · rw [if_pos hc2] at h ⊢
      exact h
    · rw [if_neg hc2] at h ⊢
      by_cases hc3 : s.take 9 = ['-', 'I', 'n', 'f', 'i', 'n', 'i', 't', 'y']
      · rw [if_pos hc3] at h ⊢
        exact h
      · rw [if_neg hc3] at h
        exact absurd h (by simp)

theorem decodeNumber_ok_orig (orig orig' : ℕ) (s : List Char)
    (p : PyObject × List Char) (h : decodeNumber orig s = Except.ok p) :
    decodeNumber orig' s = Except.ok p := by
  unfold decodeNumber at h ⊢
  rcases hsc : numScan (if headCh s = '-' ∨ headCh s = '+' then s.tail else s)
    with _ | ⟨isf, rest⟩
  · rw [hsc] at h
    exact absurd h (by simp)
  · rw [hsc] at h
    cases isf
    · replace h : (match pyIntFromList (s.take (s.length - rest.length)) with
          | some n => Except.ok (PyObject.int n, rest)
          | Option.none =>
              Except.error (DecErr.invalidNumber (orig - s.length))) =
          Except.ok p := h
      show (match pyIntFromList (s.take (s.length - rest.length)) with
          | some n => Except.ok (PyObject.int n, rest)
          | Option.none =>
              Except.error (DecErr.invalidNumber (orig' - s.length))) =
          Except.ok p
      rcases hq : pyIntFromList (s.take (s.length - rest.length)) with _ | n
      · rw [hq] at h
        exact absurd h (by simp)
      · rw [hq] at h
        exact h
    · replace h : (match pyFloatFromList (s.take (s.length - rest.length)) with
          | some q => Except.ok (PyObject.float (JFloat.finite q), rest)
          | Option.none =>
              Except.error (DecErr.invalidNumber (orig - s.length))) =
          Except.ok p := h
      show (match pyFloatFromList (s.take (s.length - rest.length)) with
          | some q => Except.ok (PyObject.float (JFloat.finite q), rest)
          | Option.none =>
              Except.error (DecErr.invalidNumber (orig' - s.length))) =
          Except.ok p
      rcases hq : pyFloatFromList (s.take (s.length - rest.length)) with _ | q
      · rw [hq] at h
        exact absurd h (by simp)
      · rw [hq] at h
        exact h

theorem decodeString_ok_orig (orig orig' : ℕ) (allU : Bool) (s : List Char)
    (p : PyObject × List Char) (h : decodeString orig allU s = Except.ok p) :
    decodeString orig' allU s = Except.ok p := by
  rcases s with _ | ⟨c, t⟩
  · exact absurd h (by simp [decodeString])
  · by_cases hc : c = '"'
    · subst hc
      replace h : (match scanStr t with
          | Option.none =>
              Except.error (DecErr.untermString (orig - ('"' :: t).length))
          | some (cont0, hu, se, su, rest) =>
            if hu ∨ allU then
              match uniUnesc (if su ∧ cont0.length < 16384 then
                  slashClean cont0 else cont0) with
              | some cs => Except.ok (PyObject.unicode cs, rest)
              | Option.none =>
                  Except.error
                    (DecErr.cannotDecodeString (orig - ('"' :: t).length))
            else if se then
              match strUnesc (if su ∧ cont0.length < 16384 then
                  slashClean cont0 else cont0) with
              | some bs => Except.ok (PyObject.str bs, rest)
              | Option.none =>
                  Except.error
                    (DecErr.cannotDecodeString (orig - ('"' :: t).length))
            else
              Except.ok (PyObject.str ((if su ∧ cont0.length < 16384 then
                  slashClean cont0 else cont0).map Char.toNat), rest)) =
          Except.ok p := h
      show (match scanStr t with
          | Option.none =>
              Except.error (DecErr.untermString (orig' - ('"' :: t).length))
          | some (cont0, hu, se, su, rest) =>
            if hu ∨ allU then
              match uniUnesc (if su ∧ cont0.length < 16384 then
                  slashClean cont0 else cont0) with
              | some cs => Except.ok (PyObject.unicode cs, rest)
              | Option.none =>
                  Except.error
                    (DecErr.cannotDecodeString (orig' - ('"' :: t).length))
            else if se then
              match strUnesc (if su ∧ cont0.length < 16384 then
                  slashClean cont0 else cont0) with
              | some bs => Except.ok (PyObject.str bs, rest)
              | Option.none =>
                  Except.error
                    (DecErr.cannotDecodeString (orig' - ('"' :: t).length))
            else
              Except.ok (PyObject.str ((if su ∧ cont0.length < 16384 then
                  slashClean cont0 else cont0).map Char.toNat), rest)) =
          Except.ok p
      rcases hsc : scanStr t with _ | ⟨cont0, hu, se, su, rest⟩
      · rw [hsc] at h
        exact absurd h (by simp)
      · rw [hsc] at h
        replace h : (if hu ∨ allU then
            match uniUnesc (if su ∧ cont0.length < 16384 then
                slashClean cont0 else cont0) with
            | some cs => Except.ok (PyObject.unicode cs, rest)
            | Option.none =>
                Except.error (DecErr.cannotDecodeString (orig - ('"' :: t).length))
          else if se then
            match strUnesc (if su ∧ cont0.length < 16384 then
                slashClean cont0 else cont0) with
            | some bs => Except.ok (PyObject.str bs, rest)
            | Option.none =>
                Except.error (DecErr.cannotDecodeString (orig - ('"' :: t).length))
          else
            Except.ok (PyObject.str ((if su ∧ cont0.length < 16384 then
                slashClean cont0 else cont0).map Char.toNat), rest)) =
          Except.ok p := h
        show (if hu ∨ allU then
            match uniUnesc (if su ∧ cont0.length < 16384 then
                slashClean cont0 else cont0) with
            | some cs => Except.ok (PyObject.unicode cs, rest)
            | Option.none =>
                Except.error (DecErr.cannotDecodeString (orig' - ('"' :: t).length))
          else if se then
            match strUnesc (if su ∧ cont0.length < 16384 then
                slashClean cont0 else cont0) with
            | some bs => Except.ok (PyObject.str bs, rest)
            | Option.none =>
                Except.error (DecErr.cannotDecodeString (orig' - ('"' :: t).length))
          else
            Except.ok (PyObject.str ((if su ∧ cont0.length < 16384 then
                slashClean cont0 else cont0).map Char.toNat), rest)) =
          Except.ok p
        by_cases h1 : hu ∨ allU
        · rw [if_pos h1] at h ⊢
          rcases hu2 : uniUnesc (if su ∧ cont0.length < 16384 then
              slashClean cont0 else cont0) with _ | cs
          · rw [hu2] at h
            exact absurd h (by simp)
          · rw [hu2] at h
            exact h
        · rw [if_neg h1] at h ⊢
          by_cases h2 : se
          · rw [if_pos h2] at h ⊢
            rcases hu2 : strUnesc (if su ∧ cont0.length < 16384 then
                slashClean cont0 else cont0) with _ | bs
            · rw [hu2] at h
              exact absurd h (by simp)
            · rw [hu2] at h
              exact h
          · rw [if_neg h2] at h ⊢
            exact h
    · exfalso
      simp only [decodeString] at h
      split at h
      · rename_i t' heq
        injection heq with h1 h2
        exact hc h1
      · exact absurd h (by simp)

/-- A successful parse is independent of the position base `orig` and the
container start offset: those parameters only enter error messages. -/
theorem decode_ok_orig (fuel : ℕ) :
    (∀ allU orig orig' s p,
      decodeJson fuel allU orig s = Except.ok p →
      decodeJson fuel allU orig' s = Except.ok p) ∧
    (∀ allU orig start orig' start' st acc cur p,
      decodeArrLoop fuel allU orig start st acc cur = Except.ok p →
      decodeArrLoop fuel allU orig' start' st acc cur = Except.ok p) ∧
    (∀ allU orig start orig' start' st acc cur p,
      decodeObjLoop fuel allU orig start st acc cur = Except.ok p →
      decodeObjLoop fuel allU orig' start' st acc cur = Except.ok p) ∧
    (∀ allU orig start orig' start' acc cur p,
      decodeObjKey fuel allU orig start acc cur = Except.ok p →
      decodeObjKey fuel allU orig' start' acc cur = Except.ok p) := by
  induction fuel with
  | zero =>
    refine ⟨?_, ?_, ?_, ?_⟩
    · intro allU orig orig' s p h
      exact absurd h (by simp [decodeJson])
    · intro allU orig start orig' start' st acc cur p h
      exact absurd h (by simp [decodeArrLoop])
    · intro allU orig start orig' start' st acc cur p h
      exact absurd h (by simp [decodeObjLoop])
    · intro allU orig start orig' start' acc cur p h
      exact absurd h (by simp [decodeObjKey])
  | succ fuel ih =>
    obtain ⟨ihJ, ihA, ihO, ihK⟩ := ih
    refine ⟨?_, ?_, ?_, ?_⟩
    · intro allU orig orig' s p h
      simp only [decodeJson] at h ⊢
      rcases hws : skipWSl s with _ | ⟨c, t⟩
      · rw [hws] at h
        exact absurd h (by simp)
      · rw [hws] at h
        replace h : (if c = nulCh then Except.error DecErr.emptyJSON
            else if c = Char.ofNat 123 then
              decodeObjLoop fuel allU orig (orig - (c :: t).length)
                OState.keyOrClose [] t
            else if c = '[' then
              decodeArrLoop fuel allU orig (orig - (c :: t).length)
                AState.itemOrClose [] t
            else if c = '"' then decodeString orig allU (c :: t)
            else if c = 't' ∨ c = 'f' then decodeBool orig (c :: t)
            else if c = 'n' then decodeNull orig (c :: t)
            else if c = 'N' then decodeNan orig (c :: t)
            else if c = 'I' then decodeInf orig (c :: t)
            else if c = '+' ∨ c = '-' then
              if headCh t = 'I' then decodeInf orig (c :: t)
              else decodeNumber orig (c :: t)
            else if c.isDigit then decodeNumber orig (c :: t)
            else Except.error DecErr.cannotParseTop) = Except.ok p := h
        show (if c = nulCh then Except.error DecErr.emptyJSON
            else if c = Char.ofNat 123 then
              decodeObjLoop fuel allU orig' (orig' - (c :: t).length)
                OState.keyOrClose [] t
            else if c = '[' then
              decodeArrLoop fuel allU orig' (orig' - (c :: t).length)
                AState.itemOrClose [] t
            else if c = '"' then decodeString orig' allU (c :: t)
            else if c = 't' ∨ c = 'f' then decodeBool orig' (c :: t)
            else if c = 'n' then decodeNull orig' (c :: t)
            else if c = 'N' then decodeNan orig' (c :: t)
            else if c = 'I' then decodeInf orig' (c :: t)
            else if c = '+' ∨ c = '-' then
              if headCh t = 'I' then decodeInf orig' (c :: t)
              else decodeNumber orig' (c :: t)
            else if c.isDigit then decodeNumber orig' (c :: t)
            else Except.error DecErr.cannotParseTop) = Except.ok p
        by_cases h1 : c = nulCh
        · rw [if_pos h1] at h
          exact absurd h (by simp)
        · rw [if_neg h1] at h ⊢
          by_cases h2 : c = Char.ofNat 123
          · rw [if_pos h2] at h ⊢
            exact ihO _ _ _ _ _ _ _ _ _ h
          · rw [if_neg h2] at h ⊢
            by_cases h3 : c = '['
            · rw [if_pos h3] at h ⊢
              exact ihA _ _ _ _ _ _ _ _ _ h
            · rw [if_neg h3] at h ⊢
              by_cases h4 : c = '"'
              · rw [if_pos h4] at h ⊢
                exact decodeString_ok_orig _ _ _ _ _ h
              · rw [if_neg h4] at h ⊢
                by_cases h5 : c = 't' ∨ c = 'f'
                · rw [if_pos h5] at h ⊢
                  exact decodeBool_ok_orig _ _ _ _ h
                · rw [if_neg h5] at h ⊢
                  by_cases h6 : c = 'n'
                  · rw [if_pos h6] at h ⊢
                    exact decodeNull_ok_orig _ _ _ _ h
                  · rw [if_neg h6] at h ⊢
                    by_cases h7 : c = 'N'
                    · rw [if_pos h7] at h ⊢
                      exact decodeNan_ok_orig _ _ _ _ h
                    · rw [if_neg h7] at h ⊢
                      by_cases h8 : c = 'I'
                      · rw [if_pos h8] at h ⊢
                        exact decodeInf_ok_orig _ _ _ _ h
                      · rw [if_neg h8] at h ⊢
                        by_cases h9 : c = '+' ∨ c = '-'
                        · rw [if_pos h9] at h ⊢
                          by_cases h10 : headCh t = 'I'
                          · rw [if_pos h10] at h ⊢
                            exact decodeInf_ok_orig _ _ _ _ h
                          · rw [if_neg h10] at h ⊢
                            exact decodeNumber_ok_orig _ _ _ _ h
                        · rw [if_neg h9] at h ⊢
                          by_cases h11 : c.isDigit
                          · rw [if_pos h11] at h ⊢
                            exact decodeNumber_ok_orig _ _ _ _ h
                          · rw [if_neg h11] at h
                            exact absurd h (by simp)
    · intro allU orig start orig' start' st acc cur p h
      simp only [decodeArrLoop] at h ⊢
      rcases hws : skipWSl cur with _ | ⟨c, t⟩
      · rw [hws] at h
        exact absurd h (by simp)
      · rw [hws] at h
        cases st
        · -- itemOrClose
          replace h : (if c = nulCh then Except.error (DecErr.untermArray start)
              else if c = ']' then Except.ok (PyObject.list acc, t)
              else if c = ',' then
                Except.error (DecErr.expectingItem (orig - (c :: t).length))
              else match decodeJson fuel allU orig (c :: t) with
                | Except.error e => Except.error e
                | Except.ok (v, rem) =>
                  decodeArrLoop fuel allU orig start AState.commaOrClose
                    (acc ++ [v]) rem) = Except.ok p := h
          show (if c = nulCh then Except.error (DecErr.untermArray start')
              else if c = ']' then Except.ok (PyObject.list acc, t)
              else if c = ',' then
                Except.error (DecErr.expectingItem (orig' - (c :: t).length))
              else match decodeJson fuel allU orig' (c :: t) with
                | Except.error e => Except.error e
                | Except.ok (v, rem) =>
                  decodeArrLoop fuel allU orig' start' AState.commaOrClose
                    (acc ++ [v]) rem) = Except.ok p
          by_cases h1 : c = nulCh
          · rw [if_pos h1] at h
            exact absurd h (by simp)
          · rw [if_neg h1] at h ⊢
            by_cases h2 : c = ']'
            · rw [if_pos h2] at h ⊢
              exact h
            · rw [if_neg h2] at h ⊢
              by_cases h3 : c = ','
              · rw [if_pos h3] at h
                exact absurd h (by simp)
              · rw [if_neg h3] at h ⊢
                rcases hj : decodeJson fuel allU orig (c :: t) with e | ⟨v, rem⟩
                · rw [hj] at h
                  exact absurd h (by simp)
                · rw [hj] at h
                  replace h : decodeArrLoop fuel allU orig start
                      AState.commaOrClose (acc ++ [v]) rem = Except.ok p := h
                  rw [ihJ _ _ orig' _ _ hj]
                  exact ihA _ _ _ _ _ _ _ _ _ h
        · -- commaOrClose
          replace h : (if c = nulCh then Except.error (DecErr.untermArray start)
              else if c = ']' then Except.ok (PyObject.list acc, t)
              else if c = ',' then
                decodeArrLoop fuel allU orig start AState.item acc t
              else Except.error
                (DecErr.expectingCommaOrRB (orig - (c :: t).length))) =
              Except.ok p := h
          show (if c = nulCh then Except.error (DecErr.untermArray start')
              else if c = ']' then Except.ok (PyObject.list acc, t)
              else if c = ',' then
                decodeArrLoop fuel allU orig' start' AState.item acc t
              else Except.error
                (DecErr.expectingCommaOrRB (orig' - (c :: t).length))) =
              Except.ok p
          by_cases h1 : c = nulCh
          · rw [if_pos h1] at h
            exact absurd h (by simp)
          · rw [if_neg h1] at h ⊢
            by_cases h2 : c = ']'
            · rw [if_pos h2] at h ⊢
              exact h
            · rw [if_neg h2] at h ⊢
              by_cases h3 : c = ','
              · rw [if_pos h3] at h ⊢
                exact ihA _ _ _ _ _ _ _ _ _ h
              · rw [if_neg h3] at h
                exact absurd h (by simp)
        · -- item
          replace h : (if c = nulCh then Except.error (DecErr.untermArray start)
              else if c = ',' ∨ c = ']' then
                Except.error (DecErr.expectingItem (orig - (c :: t).length))
              else match decodeJson fuel allU orig (c :: t) with
                | Except.error e => Except.error e
                | Except.ok (v, rem) =>
                  decodeArrLoop fuel allU orig start AState.commaOrClose
                    (acc ++ [v]) rem) = Except.ok p := h
          show (if c = nulCh then Except.error (DecErr.untermArray start')
              else if c = ',' ∨ c = ']' then
                Except.error (DecErr.expectingItem (orig' - (c :: t).length))
              else match decodeJson fuel allU orig' (c :: t) with
                | Except.error e => Except.error e
                | Except.ok (v, rem) =>
                  decodeArrLoop fuel allU orig' start' AState.commaOrClose
                    (acc ++ [v]) rem) = Except.ok p
          by_cases h1 : c = nulCh
          · rw [if_pos h1] at h
            exact absurd h (by simp)
          · rw [if_neg h1] at h ⊢
            by_cases h2 : c = ',' ∨ c = ']'
            · rw [if_pos h2] at h
              exact absurd h (by simp)
            · rw [if_neg h2] at h ⊢
              rcases hj : decodeJson fuel allU orig (c :: t) with e | ⟨v, rem⟩
              · rw [hj] at h
                exact absurd h (by simp)
              · rw [hj] at h
                replace h : decodeArrLoop fuel allU orig start
                    AState.commaOrClose (acc ++ [v]) rem = Except.ok p := h
                rw [ihJ _ _ orig' _ _ hj]
                exact ihA _ _ _ _ _ _ _ _ _ h
    · intro allU orig start orig' start' st acc cur p h
      simp only [decodeObjLoop] at h ⊢
      rcases hws : skipWSl cur with _ | ⟨c, t⟩
      · rw [hws] at h
        exact absurd h (by simp)
      · rw [hws] at h
        cases st
        · -- keyOrClose
          replace h : (if c = nulCh then Except.error (DecErr.untermObject start)
              else if c = Char.ofNat 125 then Except.ok (PyObject.dict acc, t)
              else decodeObjKey fuel allU orig start acc cur) = Except.ok p := h
          show (if c = nulCh then Except.error (DecErr.untermObject start')
              else if c = Char.ofNat 125 then Except.ok (PyObject.dict acc, t)
              else decodeObjKey fuel allU orig' start' acc cur) = Except.ok p
          by_cases h1 : c = nulCh
          · rw [if_pos h1] at h
            exact absurd h (by simp)
          · rw [if_neg h1] at h ⊢
            by_cases h2 : c = Char.ofNat 125
            · rw [if_pos h2] at h ⊢
              exact h
            · rw [if_neg h2] at h ⊢
              exact ihK _ _ _ _ _ _ _ _ h
        · -- commaOrClose
          replace h : (if c = nulCh then Except.error (DecErr.untermObject start)
              else if c = Char.ofNat 125 then Except.ok (PyObject.dict acc, t)
              else if c = ',' then
                decodeObjLoop fuel allU orig start OState.key acc t
              else Except.error
                (DecErr.expectingCommaOrRBrace (orig - (c :: t).length))) =
              Except.ok p := h
          show (if c = nulCh then Except.error (DecErr.untermObject start')
              else if c = Char.ofNat 125 then Except.ok (PyObject.dict acc, t)
              else if c = ',' then
                decodeObjLoop fuel allU orig' start' OState.key acc t
              else Except.error
                (DecErr.expectingCommaOrRBrace (orig' - (c :: t).length))) =
              Except.ok p
          by_cases h1 : c = nulCh
          · rw [if_pos h1] at h
            exact absurd h (by simp)
          · rw [if_neg h1] at h ⊢
            by_cases h2 : c = Char.ofNat 125
            · rw [if_pos h2] at h ⊢
              exact h
            · rw [if_neg h2] at h ⊢
              by_cases h3 : c = ','
              · rw [if_pos h3] at h ⊢
                exact ihO _ _ _ _ _ _ _ _ _ h
              · rw [if_neg h3] at h
                exact absurd h (by simp)
        · -- key
          replace h : (if c = nulCh then Except.error (DecErr.untermObject start)
              else decodeObjKey fuel allU orig start acc cur) = Except.ok p := h
          show (if c = nulCh then Except.error (DecErr.untermObject start')
              else decodeObjKey fuel allU orig' start' acc cur) = Except.ok p
          by_cases h1 : c = nulCh
          · rw [if_pos h1] at h
            exact absurd h (by simp)
          · rw [if_neg h1] at h ⊢
            exact ihK _ _ _ _ _ _ _ _ h
    · intro allU orig start orig' start' acc cur p h
      simp only [decodeObjKey] at h ⊢
      by_cases h1 : headCh (skipWSl cur) ≠ '"'
      · rw [if_pos h1] at h
        exact absurd h (by simp)
      · rw [if_neg h1] at h ⊢
        rcases hj1 : decodeJson fuel allU orig (skipWSl cur) with e | ⟨k, r1⟩
        · rw [hj1] at h
          exact absurd h (by simp)
        · rw [hj1] at h
          rw [ihJ _ _ orig' _ _ hj1]
          replace h : (if headCh (skipWSl r1) ≠ ':' then
              Except.error (DecErr.missingColon (orig - (skipWSl r1).length))
            else if headCh (skipWSl (skipWSl r1).tail) = ',' ∨
                headCh (skipWSl (skipWSl r1).tail) = Char.ofNat 125 then
              Except.error (DecErr.expectingPropValue
                (orig - (skipWSl (skipWSl r1).tail).length))
            else match decodeJson fuel allU orig (skipWSl (skipWSl r1).tail) with
              | Except.error e => Except.error e
              | Except.ok (v, r4) =>
                decodeObjLoop fuel allU orig start OState.commaOrClose
                  (dictSet acc k v) r4) = Except.ok p := h
          show (if headCh (skipWSl r1) ≠ ':' then
              Except.error (DecErr.missingColon (orig' - (skipWSl r1).length))
            else if headCh (skipWSl (skipWSl r1).tail) = ',' ∨
                headCh (skipWSl (skipWSl r1).tail) = Char.ofNat 125 then
              Except.error (DecErr.expectingPropValue
                (orig' - (skipWSl (skipWSl r1).tail).length))
            else match decodeJson fuel allU orig' (skipWSl (skipWSl r1).tail) with
              | Except.error e => Except.error e
              | Except.ok (v, r4) =>
                decodeObjLoop fuel allU orig' start' OState.commaOrClose
                  (dictSet acc k v) r4) = Except.ok p
          by_cases h2 : headCh (skipWSl r1) ≠ ':'
          · rw [if_pos h2] at h
            exact absurd h (by simp)
          · rw [if_neg h2] at h ⊢
            by_cases h3 : headCh (skipWSl (skipWSl r1).tail) = ',' ∨
                headCh (skipWSl (skipWSl r1).tail) = Char.ofNat 125
            · rw [if_pos h3] at h
              exact absurd h (by simp)
            · rw [if_neg h3] at h ⊢
              rcases hj2 : decodeJson fuel allU orig (skipWSl (skipWSl r1).tail)
                with e | ⟨v, r4⟩
              · rw [hj2] at h
                exact absurd h (by simp)
              · rw [hj2] at h
                replace h : decodeObjLoop fuel allU orig start
                    OState.commaOrClose (dictSet acc k v) r4 = Except.ok p := h
                rw [ihJ _ _ orig' _ _ hj2]
                exact ihO _ _ _ _ _ _ _ _ _ h

theorem skipWSl_ws_append (w s : List Char) (h : ∀ c ∈ w, cSpace c = true) :
    skipWSl (w ++ s) = skipWSl s := by
  induction w with
  | nil => rfl
  | cons c t ih =>
    show ((c :: t) ++ s).dropWhile cSpace = skipWSl s
    rw [List.cons_append, List.dropWhile_cons, if_pos (h c (List.mem_cons_self c t))]
    exact ih (fun x hx => h x (List.mem_cons_of_mem c hx))

/-- **C7.** Amended: the characters `decode` skips as whitespace are
exactly those of C `isspace` — ASCII space, tab, newline, vertical tab,
form feed, and carriage return; prepending any characters of that set to
the input leaves the parse of the top-level value unchanged, and a
successful top-level decode also succeeds, with the same value, on the
whitespace-prefixed input; concretely `decode(" \t\n 1 \n")` and
`decode("1")` both give the integer 1. -/
theorem c7_whitespace (w s : List Char) (fuel : ℕ) (allU : Bool) (v : PyObject)
    (hw : ∀ c ∈ w, cSpace c = true) :
    (∀ c, cSpace c = true ↔ (c = ' ' ∨ c = '\t' ∨ c = '\n' ∨
      c = Char.ofNat 11 ∨ c = Char.ofNat 12 ∨ c = '\r')) ∧
    (∀ orig, decodeJson (fuel + 1) allU orig (w ++ s) =
      decodeJson (fuel + 1) allU orig s) ∧
    (decodeTop (fuel + 1) allU s = Except.ok v →
      decodeTop (fuel + 1) allU (w ++ s) = Except.ok v) ∧
    decodeTop 10 false [' ', '\t', '\n', ' ', '1', ' ', '\n'] =
      Except.ok (PyObject.int 1) ∧
    decodeTop 10 false ['1'] = Except.ok (PyObject.int 1) := by
  refine ⟨?_, ?_, ?_, rfl, rfl⟩
  · intro c
    simp [cSpace]
  · intro orig
    simp only [decodeJson]
    rw [skipWSl_ws_append w s hw]
  · intro h
    unfold decodeTop at h
    by_cases hnul : s.any (fun c => c = nulCh) = true
    · rw [if_pos hnul] at h
      exact absurd h (by simp)
    · rw [if_neg hnul] at h
      rcases hj : decodeJson (fuel + 1) allU s.length s with e | ⟨v0, rem⟩
      · rw [hj] at h
        exact absurd h (by simp)
      · rw [hj] at h
        replace h : (if skipWSl rem = [] then Except.ok v0
            else Except.error (DecErr.extraData
              (s.length - (skipWSl rem).length))) = Except.ok v := h
        by_cases hrem : skipWSl rem = []
        · rw [if_pos hrem] at h
          have hnul2 : (w ++ s).any (fun c => c = nulCh) = false := by
            rw [List.any_append]
            apply Bool.or_eq_false_iff.mpr
            constructor
            · rw [List.any_eq_false]
              intro c hc hcn
              have hws := hw c hc
              rw [of_decide_eq_true hcn] at hws
              exact absurd hws (by decide)
            · exact Bool.eq_false_iff.mpr hnul
          unfold decodeTop
          rw [if_neg (by simp [hnul2])]
          have e1 : decodeJson (fuel + 1) allU (w ++ s).length (w ++ s) =
              decodeJson (fuel + 1) allU (w ++ s).length s := by
            simp only [decodeJson]
            rw [skipWSl_ws_append w s hw]
          have hj2 : decodeJson (fuel + 1) allU (w ++ s).length (w ++ s) =
              Except.ok (v0, rem) := by
            rw [e1]
            exact (decode_ok_orig (fuel + 1)).1 allU s.length _ s _ hj
          rw [hj2]
          show (if skipWSl rem = [] then Except.ok v0
            else Except.error (DecErr.extraData
              ((w ++ s).length - (skipWSl rem).length))) = Except.ok v
          rw [if_pos hrem]
          exact h
        · rw [if_neg hrem] at h
          exact absurd h (by simp)

theorem c7_whitespace_witness :
    decodeTop 10 false ([' '] ++ ['1']) = Except.ok (PyObject.int 1) :=
  (c7_whitespace [' '] ['1'] 9 false (PyObject.int 1) (by decide)).2.2.1 rfl

/-- The claim says the skipped whitespace set is exactly space, tab,
newline and carriage return, and that an input with any other leading
character (for example a vertical tab) is not treated as
whitespace-prefixed; in fact `skipSpaces` uses C `isspace` (cjson.c:68),
which also skips vertical tab and form feed, so `decode("\v1")` succeeds
and returns 1 instead of failing. -/
theorem c7_vtab_counterexample :
    decodeTop 10 false [Char.ofNat 11, '1'] = Except.ok (PyObject.int 1) := rfl

/-! ### C1: the round trip -/

theorem digitCh_isDigit (d : ℕ) (h : d < 10) : (digitCh d).isDigit = true := by
  interval_cases d <;> decide

theorem digitCh_toNat (d : ℕ) (h : d < 10) : (digitCh d).toNat = 48 + d := by
  unfold digitCh
  exact char_ofNat_toNat _ (by omega)

theorem natToDec_ne_nil (n : ℕ) : natToDec n ≠ [] := by
  rw [natToDec_eq n]
  split <;> simp

theorem natToDec_digits (n : ℕ) : ∀ c ∈ natToDec n, c.isDigit := by
  induction n using Nat.strong_induction_on with
  | _ n ih =>
    rw [natToDec_eq n]
    by_cases h10 : n < 10
    · rw [if_pos h10]
      intro c hc
      rw [List.mem_singleton] at hc
      rw [hc]
      exact digitCh_isDigit n h10
    · rw [if_neg h10]
      intro c hc
      rcases List.mem_append.mp hc with hc | hc
      · exact ih (n / 10) (Nat.div_lt_self (by omega) (by omega)) c hc
      · rw [List.mem_singleton] at hc
        rw [hc]
        exact digitCh_isDigit _ (Nat.mod_lt n (by omega))

theorem headCh_append_left (a b : List Char) (h : a ≠ []) :
    headCh (a ++ b) = headCh a := by
  cases a with
  | nil => exact absurd rfl h
  | cons c t => rfl

theorem natToDec_head_ne_zero (n : ℕ) (h : n ≠ 0) : headCh (natToDec n) ≠ '0' := by
  induction n using Nat.strong_induction_on with
  | _ n ih =>
    rw [natToDec_eq n]
    by_cases h10 : n < 10
    · rw [if_pos h10, headCh_cons]
      intro hc
      have h1 : (digitCh n).toNat = ('0' : Char).toNat := by rw [hc]
      rw [digitCh_toNat n h10, show ('0' : Char).toNat = 48 from rfl] at h1
      omega
    · rw [if_neg h10, headCh_append_left _ _ (natToDec_ne_nil _)]
      exact ih (n / 10) (Nat.div_lt_self (by omega) (by omega)) (by omega)

theorem intPartOk_natToDec (n : ℕ) : intPartOk (natToDec n) := by
  by_cases h0 : n = 0
  · subst h0
    exact Or.inl rfl
  · right
    obtain ⟨c, t, hct⟩ := List.exists_cons_of_ne_nil (natToDec_ne_nil n)
    refine ⟨c, t, hct, ?_, ?_, ?_⟩
    · exact natToDec_digits n c (hct ▸ List.mem_cons_self c t)
    · have := natToDec_head_ne_zero n h0
      rw [hct, headCh_cons] at this
      exact this
    · intro x hx
      exact natToDec_digits n x (hct ▸ List.mem_cons_of_mem c hx)

theorem digitsVal_append_digit (l : List Char) (c : Char) :
    digitsVal (l ++ [c]) = 10 * digitsVal l + (c.toNat - 48) := by
  unfold digitsVal
  rw [List.foldl_append]
  simp [Nat.mul_comm]

theorem digitsVal_natToDec (n : ℕ) : digitsVal (natToDec n) = n := by
  induction n using Nat.strong_induction_on with
  | _ n ih =>
    rw [natToDec_eq n]
    by_cases h10 : n < 10
    · rw [if_pos h10]
      show digitsVal [digitCh n] = n
      unfold digitsVal
      simp [digitCh_toNat n h10]
    · rw [if_neg h10, digitsVal_append_digit,
          ih (n / 10) (Nat.div_lt_self (by omega) (by omega)),
          digitCh_toNat _ (Nat.mod_lt n (by omega))]
      omega

theorem take_append_cancel (x r : List Char) :
    (x ++ r).take ((x ++ r).length - r.length) = x := by
  rw [List.length_append, Nat.add_sub_cancel, List.take_left]

theorem pyIntFromList_intToDec (n : ℤ) : pyIntFromList (intToDec n) = some n := by
  unfold intToDec
  by_cases hneg : n < 0
  · rw [if_pos hneg]
    unfold pyIntFromList
    rw [headCh_cons, if_pos rfl, List.tail_cons,
        if_pos ⟨natToDec_ne_nil _, List.all_eq_true.mpr (natToDec_digits _)⟩,
        digitsVal_natToDec]
    congr 1
    omega
  · rw [if_neg hneg]
    unfold pyIntFromList
    have hd : (headCh (natToDec n.natAbs)).isDigit = true :=
      digits_head_isDigit' _ (natToDec_ne_nil _) (natToDec_digits _)
    rw [if_neg (fun hc => digit_not_sign _ hd (Or.inr hc)),
        if_neg (fun hc => digit_not_sign _ hd (Or.inl hc)),
        if_pos ⟨natToDec_ne_nil _, List.all_eq_true.mpr (natToDec_digits _)⟩,
        digitsVal_natToDec]
    congr 1
    omega

/-- `decode_number` recovers the integer from its decimal rendering. -/
theorem decodeNumber_int (orig : ℕ) (n : ℤ) (rest : List Char) (hr : NoCont rest) :
    decodeNumber orig (intToDec n ++ rest) = Except.ok (PyObject.int n, rest) := by
  have hip := intPartOk_natToDec n.natAbs
  have hscan : numScan (natToDec n.natAbs ++ rest) = some (false, rest) := by
    have := numScan_grammar (natToDec n.natAbs) [] [] rest hip (Or.inl rfl)
      (Or.inl rfl) hr
    simpa using this
  have hd : (headCh (natToDec n.natAbs ++ rest)).isDigit = true :=
    digits_head_isDigit _ rest (natToDec_ne_nil _) (natToDec_digits _)
  unfold intToDec
  by_cases hneg : n < 0
  · rw [if_pos hneg]
    have hpi : pyIntFromList ('-' :: natToDec n.natAbs) = some n := by
      have := pyIntFromList_intToDec n
      rwa [intToDec, if_pos hneg] at this
    unfold decodeNumber
    rw [show (('-' :: natToDec n.natAbs) ++ rest) =
        '-' :: (natToDec n.natAbs ++ rest) from rfl]
    rw [headCh_cons, if_pos (Or.inl rfl), List.tail_cons, hscan]
    show (match pyIntFromList (('-' :: (natToDec n.natAbs ++ rest)).take
        (('-' :: (natToDec n.natAbs ++ rest)).length - rest.length)) with
      | some m => Except.ok (PyObject.int m, rest)
      | Option.none => Except.error (DecErr.invalidNumber
          (orig - ('-' :: (natToDec n.natAbs ++ rest)).length))) =
      Except.ok (PyObject.int n, rest)
    rw [show ('-' :: (natToDec n.natAbs ++ rest)) =
        (('-' :: natToDec n.natAbs) ++ rest) from rfl, take_append_cancel, hpi]
  · rw [if_neg hneg]
    have hpi : pyIntFromList (natToDec n.natAbs) = some n := by
      have := pyIntFromList_intToDec n
      rwa [intToDec, if_neg hneg] at this
    unfold decodeNumber
    rw [if_neg (fun hc => digit_not_sign _ hd hc.symm), hscan]
    show (match pyIntFromList ((natToDec n.natAbs ++ rest).take
        ((natToDec n.natAbs ++ rest).length - rest.length)) with
      | some m => Except.ok (PyObject.int m, rest)
      | Option.none => Except.error (DecErr.invalidNumber
          (orig - (natToDec n.natAbs ++ rest).length))) =
      Except.ok (PyObject.int n, rest)
    rw [take_append_cancel, hpi]

theorem digitsVal_cons_zero (m : List Char) : digitsVal ('0' :: m) = digitsVal m := by
  unfold digitsVal
  rw [List.foldl_cons]
  congr 1

theorem digitsVal_replicate_zero (z : ℕ) (l : List Char) :
    digitsVal (List.replicate z '0' ++ l) = digitsVal l := by
  induction z with
  | zero => rfl
  | succ z ih => rw [List.replicate_succ, List.cons_append, digitsVal_cons_zero, ih]

theorem natToDec_length_le : ∀ k n : ℕ, n < 10 ^ k → 1 ≤ k →
    (natToDec n).length ≤ k := by
  intro k
  induction k with
  | zero =>
    intro n h h1
    omega
  | succ k ihk =>
    intro n h h1
    rw [natToDec_eq n]
    by_cases h10 : n < 10
    · rw [if_pos h10]
      simp
    · rw [if_neg h10, List.length_append]
      have hk1 : 1 ≤ k := by
        by_contra hc
        have hk0 : k = 0 := by omega
        subst hk0
        norm_num at h
        omega
      have hdiv : n / 10 < 10 ^ k := by
        rw [Nat.div_lt_iff_lt_mul (by norm_num)]
        calc n < 10 ^ (k + 1) := h
        _ = 10 ^ k * 10 := by rw [pow_succ]
      have := ihk (n / 10) hdiv hk1
      simp only [List.length_singleton]
      omega

/-- The decimal scale, integral digits, fractional value and fractional
digit block of `floatRepr` (its internal `let`-bindings, named so the
round-trip lemmas can speak about them). -/
def frK (q : ℚ) : ℕ := Nat.log2 q.den

def frA (q : ℚ) : ℕ := (q.num * 5 ^ frK q).natAbs / 10 ^ frK q

def frF (q : ℚ) : ℕ := (q.num * 5 ^ frK q).natAbs % 10 ^ frK q

def frD (q : ℚ) : List Char :=
  if frK q = 0 then ['0']
  else List.replicate (frK q - (natToDec (frF q)).length) '0' ++ natToDec (frF q)

theorem floatRepr_parts (q : ℚ) :
    floatRepr q =
      (if q.num < 0 then ['-'] else []) ++ (natToDec (frA q) ++ '.' :: frD q) := by
  simp only [floatRepr, frA, frF, frD, frK]
  rw [List.append_assoc]

theorem frD_ne_nil (q : ℚ) : frD q ≠ [] := by
  unfold frD
  split
  · simp
  · simp [natToDec_ne_nil]

theorem frD_digits (q : ℚ) : ∀ c ∈ frD q, c.isDigit := by
  unfold frD
  split
  · intro c hc
    rw [List.mem_singleton] at hc
    rw [hc]
    decide
  · intro c hc
    rcases List.mem_append.mp hc with hc | hc
    · rw [List.eq_of_mem_replicate hc]
      decide
    · exact natToDec_digits _ c hc

theorem floatBody_value (a : ℕ) (fd : List Char) (hfd : fd ≠ [])
    (hdig : ∀ c ∈ fd, c.isDigit) :
    floatBody (natToDec a ++ '.' :: fd) =
      some ((a : ℚ) + (digitsVal fd : ℚ) / (10 : ℚ) ^ fd.length) := by
  have htw := takeWhile_digits_append (natToDec a) ('.' :: fd)
    (natToDec_digits a) (by rw [headCh_cons]; decide)
  unfold floatBody
  rw [htw.1, htw.2, if_neg (natToDec_ne_nil a), digitsVal_natToDec]
  unfold floatFracPhase
  rw [headCh_cons, if_pos rfl, List.tail_cons]
  have htw2 : fd.takeWhile Char.isDigit = fd ∧ fd.dropWhile Char.isDigit = [] := by
    have := takeWhile_digits_append fd [] hdig (by decide)
    simpa using this
  rw [htw2.1, htw2.2]
  unfold floatExpPhase
  rw [if_neg (by decide), if_pos rfl]

theorem pyFloatFromList_pos_parts (a : ℕ) (fd : List Char) (hfd : fd ≠ [])
    (hdig : ∀ c ∈ fd, c.isDigit) :
    pyFloatFromList (natToDec a ++ '.' :: fd) =
      some ((a : ℚ) + (digitsVal fd : ℚ) / (10 : ℚ) ^ fd.length) := by
  have hd : (headCh (natToDec a ++ '.' :: fd)).isDigit = true :=
    digits_head_isDigit _ _ (natToDec_ne_nil a) (natToDec_digits a)
  unfold pyFloatFromList
  rw [if_neg (fun hc => digit_not_sign _ hd (Or.inr hc)),
      if_neg (fun hc => digit_not_sign _ hd (Or.inl hc))]
  exact floatBody_value a fd hfd hdig

theorem pyFloatFromList_neg_parts (a : ℕ) (fd : List Char) (hfd : fd ≠ [])
    (hdig : ∀ c ∈ fd, c.isDigit) :
    pyFloatFromList ('-' :: (natToDec a ++ '.' :: fd)) =
      some (-((a : ℚ) + (digitsVal fd : ℚ) / (10 : ℚ) ^ fd.length)) := by
  unfold pyFloatFromList
  rw [headCh_cons, if_pos rfl, List.tail_cons, floatBody_value a fd hfd hdig]
  rfl

/-- The decimal expansion emitted by `floatRepr` has the exact value
`|num| / den` for a dyadic rational. -/
theorem frD_value (q : ℚ) (hq : q.den = 2 ^ Nat.log2 q.den) :
    ((frA q : ℚ) + (digitsVal (frD q) : ℚ) / (10 : ℚ) ^ (frD q).length) =
      (q.num.natAbs : ℚ) / (q.den : ℚ) := by
  have hden : (q.den : ℚ) = 2 ^ frK q := by
    rw [hq]
    push_cast
    rfl
  by_cases hk0 : frK q = 0
  · rw [frD, if_pos hk0]
    have hA : frA q = q.num.natAbs := by
      unfold frA
      rw [hk0]
      simp
    rw [hA, hden, hk0, show digitsVal ['0'] = 0 from rfl]
    norm_num
  · have hlen : (natToDec (frF q)).length ≤ frK q :=
      natToDec_length_le (frK q) (frF q)
        (Nat.mod_lt _ (by positivity)) (by omega)
    have hfd : frD q = List.replicate (frK q - (natToDec (frF q)).length) '0' ++
        natToDec (frF q) := by
      rw [frD, if_neg hk0]
    have hdv : digitsVal (frD q) = frF q := by
      rw [hfd, digitsVal_replicate_zero, digitsVal_natToDec]
    have hlen2 : (frD q).length = frK q := by
      rw [hfd, List.length_append, List.length_replicate]
      omega
    rw [hdv, hlen2]
    have h10 : ((10 : ℚ) ^ frK q) ≠ 0 := by positivity
    have hsplitN : 10 ^ frK q * frA q + frF q = (q.num * 5 ^ frK q).natAbs :=
      Nat.div_add_mod _ _
    have hsplit : (10 : ℚ) ^ frK q * (frA q : ℚ) + (frF q : ℚ) =
        ((q.num * 5 ^ frK q).natAbs : ℚ) := by
      exact_mod_cast congrArg (Nat.cast : ℕ → ℚ) hsplitN
    have e1 : (frA q : ℚ) + (frF q : ℚ) / 10 ^ frK q =
        ((q.num * 5 ^ frK q).natAbs : ℚ) / 10 ^ frK q := by
      rw [eq_div_iff h10, add_mul, div_mul_cancel₀ _ h10, ← hsplit]
      ring
    rw [e1]
    have e2 : ((q.num * 5 ^ frK q).natAbs : ℚ) =
        (q.num.natAbs : ℚ) * 5 ^ frK q := by
      rw [Int.natAbs_mul, Int.natAbs_pow]
      push_cast
      norm_num
    rw [e2, hden, div_eq_div_iff h10 (by positivity),
        show (10 : ℚ) = 2 * 5 from by norm_num, mul_pow]
    ring

theorem pyFloatFromList_floatRepr (q : ℚ) (hq : q.den = 2 ^ Nat.log2 q.den) :
    pyFloatFromList (floatRepr q) = some q := by
  rw [floatRepr_parts]
  by_cases hneg : q.num < 0
  · rw [if_pos hneg, List.singleton_append,
        pyFloatFromList_neg_parts _ _ (frD_ne_nil q) (frD_digits q),
        frD_value q hq]
    congr 1
    have habs : ((q.num.natAbs : ℚ)) = -(q.num : ℚ) := by
      rw [Int.cast_natAbs, Int.cast_abs]
      exact abs_of_neg (by exact_mod_cast hneg)
    rw [habs, neg_div, neg_neg, Rat.num_div_den]
  · rw [if_neg hneg, List.nil_append,
        pyFloatFromList_pos_parts _ _ (frD_ne_nil q) (frD_digits q),
        frD_value q hq]
    congr 1
    have habs : ((q.num.natAbs : ℚ)) = (q.num : ℚ) := by
      rw [Int.cast_natAbs, Int.cast_abs]
      exact abs_of_nonneg (by exact_mod_cast not_lt.mp hneg)
    rw [habs, Rat.num_div_den]

/-- `decode_number` recovers the exact value from a `floatRepr` literal. -/
theorem decodeNumber_float (orig : ℕ) (q : ℚ) (rest : List Char)
    (hq : q.den = 2 ^ Nat.log2 q.den) (hr : NoCont rest) :
    decodeNumber orig (floatRepr q ++ rest) =
      Except.ok (PyObject.float (JFloat.finite q), rest) := by
  have hip := intPartOk_natToDec (frA q)
  have hfp : fracPartOk ('.' :: frD q) :=
    Or.inr ⟨frD q, rfl, frD_ne_nil q, frD_digits q⟩
  have hscan : numScan (natToDec (frA q) ++ ('.' :: frD q ++ rest)) =
      some (true, rest) := by
    have := numScan_grammar (natToDec (frA q)) ('.' :: frD q) [] rest hip hfp
      (Or.inl rfl) hr
    simpa [List.append_assoc] using this
  have hd : (headCh (natToDec (frA q) ++ ('.' :: frD q ++ rest))).isDigit = true :=
    digits_head_isDigit _ _ (natToDec_ne_nil _) (natToDec_digits _)
  rw [floatRepr_parts]
  by_cases hneg : q.num < 0
  · rw [if_pos hneg]
    have hpf : pyFloatFromList ('-' :: (natToDec (frA q) ++ '.' :: frD q)) =
        some q := by
      have := pyFloatFromList_floatRepr q hq
      rwa [floatRepr_parts, if_pos hneg, List.singleton_append] at this
    unfold decodeNumber
    rw [show ((['-'] ++ (natToDec (frA q) ++ '.' :: frD q)) ++ rest) =
        '-' :: (natToDec (frA q) ++ ('.' :: frD q ++ rest)) from by
          simp [List.append_assoc]]
    rw [headCh_cons, if_pos (Or.inl rfl), List.tail_cons, hscan]
    show (match pyFloatFromList
        (('-' :: (natToDec (frA q) ++ ('.' :: frD q ++ rest))).take
          (('-' :: (natToDec (frA q) ++ ('.' :: frD q ++ rest))).length -
            rest.length)) with
      | some p => Except.ok (PyObject.float (JFloat.finite p), rest)
      | Option.none => Except.error (DecErr.invalidNumber
          (orig - ('-' :: (natToDec (frA q) ++ ('.' :: frD q ++ rest))).length))) =
      Except.ok (PyObject.float (JFloat.finite q), rest)
    rw [show ('-' :: (natToDec (frA q) ++ ('.' :: frD q ++ rest))) =
        (('-' :: (natToDec (frA q) ++ '.' :: frD q)) ++ rest) from by
          simp [List.append_assoc], take_append_cancel, hpf]
  · rw [if_neg hneg]
    have hpf : pyFloatFromList (natToDec (frA q) ++ '.' :: frD q) = some q := by
      have := pyFloatFromList_floatRepr q hq
      rwa [floatRepr_parts, if_neg hneg, List.nil_append] at this
    unfold decodeNumber
    rw [show (([] ++ (natToDec (frA q) ++ '.' :: frD q)) ++ rest) =
        natToDec (frA q) ++ ('.' :: frD q ++ rest) from by
          simp [List.append_assoc]]
    rw [if_neg (fun hc => digit_not_sign _ hd hc.symm), hscan]
    show (match pyFloatFromList
        ((natToDec (frA q) ++ ('.' :: frD q ++ rest)).take
          ((natToDec (frA q) ++ ('.' :: frD q ++ rest)).length - rest.length)) with
      | some p => Except.ok (PyObject.float (JFloat.finite p), rest)
      | Option.none => Except.error (DecErr.invalidNumber
          (orig - (natToDec (frA q) ++ ('.' :: frD q ++ rest)).length))) =
      Except.ok (PyObject.float (JFloat.finite q), rest)
    rw [show (natToDec (frA q) ++ ('.' :: frD q ++ rest)) =
        ((natToDec (frA q) ++ '.' :: frD q) ++ rest) from by
          simp [List.append_assoc], take_append_cancel, hpf]

theorem hexVal_hexCh (k : ℕ) (h : k < 16) : hexVal (hexCh k) = some k := by
  interval_cases k <;> decide

theorem hex4_digits (v : ℕ) (h : v < 65536) :
    hex4 (hexCh (v / 4096 % 16)) (hexCh (v / 256 % 16))
      (hexCh (v / 16 % 16)) (hexCh (v % 16)) = some v := by
  unfold hex4
  rw [hexVal_hexCh _ (Nat.mod_lt _ (by norm_num)),
      hexVal_hexCh _ (Nat.mod_lt _ (by norm_num)),
      hexVal_hexCh _ (Nat.mod_lt _ (by norm_num)),
      hexVal_hexCh _ (Nat.mod_lt _ (by norm_num))]
  show some _ = some v
  congr 1
  omega

theorem hexCh_ne_nul (k : ℕ) : hexCh k ≠ nulCh := by
  unfold hexCh
  split <;> decide

theorem hexCh_ne_backslash (k : ℕ) : hexCh k ≠ '\\' := by
  unfold hexCh
  split <;> decide

theorem hexCh_ne_quote (k : ℕ) : hexCh k ≠ '"' := by
  unfold hexCh
  split <;> decide

theorem hexCh_not_high (k : ℕ) : (128 ≤ (hexCh k).toNat) = False := by
  have := hexCh_range k
  simp only [eq_iff_iff, iff_false, not_le]
  omega

theorem scanStr_close (r : List Char) :
    scanStr ('"' :: r) = some ([], false, false, false, r) := rfl

theorem scanStr_plain_step (c : Char) (t : List Char) (h1 : c ≠ nulCh)
    (h2 : c ≠ '\\') (h3 : c ≠ '"') :
    scanStr (c :: t) =
      match scanStr t with
      | Option.none => Option.none
      | some (cont, hu, se, su, rest) =>
        some (c :: cont, hu ∨ 128 ≤ c.toNat, se, su, rest) := by
  simp only [scanStr]
  rw [if_neg h1, if_neg h2, if_neg h3]

theorem scanStr_esc_step (c : Char) (t : List Char) (h1 : c ≠ nulCh) :
    scanStr ('\\' :: c :: t) =
      match scanStr t with
      | Option.none => Option.none
      | some (cont, hu, se, su, rest) =>
        some ('\\' :: c :: cont, hu ∨ c = 'u',
          se ∨ (c = '"' ∨ c = 'r' ∨ c = 'n' ∨ c = 't' ∨ c = 'b' ∨ c = 'f' ∨ c = '\\'),
          su ∨ c = '/', rest) := by
  have hstep : scanStr ('\\' :: c :: t) =
      match scanStrEsc (c :: t) with
      | Option.none => Option.none
      | some (cont, hu, se, su, rest) => some ('\\' :: cont, hu, se, su, rest) :=
    rfl
  have hstep2 : scanStrEsc (c :: t) =
      if c = nulCh then Option.none
      else match scanStr t with
        | Option.none => Option.none
        | some (cont, hu, se, su, rest) =>
          some (c :: cont, (hu ∨ c = 'u' : Bool),
            (se ∨ (c = '"' ∨ c = 'r' ∨ c = 'n' ∨ c = 't' ∨ c = 'b' ∨ c = 'f' ∨
              c = '\\') : Bool),
            (su ∨ c = '/' : Bool), rest) := rfl
  rw [hstep, hstep2, if_neg h1]
  rcases hsc : scanStr t with _ | ⟨cont, hu, se, su, rest⟩ <;> rfl

/-- Classification of escaped bytes, mirroring the branch structure of
`escByte`: bytes whose escape sets `string_escape`, and bytes whose escape
sets `has_unicode` (a `\u00hh` escape). -/
def escByteSE (b : ℕ) : Bool :=
  b = 34 ∨ b = 92 ∨ b = 9 ∨ b = 10 ∨ b = 13 ∨ b = 12 ∨ b = 8

def escByteHU (b : ℕ) : Bool :=
  !escByteSE b && decide (b < 32 ∨ 127 ≤ b)

theorem scanStr_escByte (b : ℕ) (hb : b < 256) (r : List Char) :
    scanStr (escByte b ++ r) =
      match scanStr r with
      | Option.none => Option.none
      | some (cont, hu, se, su, rest) =>
        some (escByte b ++ cont, hu || escByteHU b, se || escByteSE b, su, rest) := by
  by_cases h1 : b = 34 ∨ b = 92
  · have he : escByte b = ['\\', Char.ofNat b] := by
      unfold escByte
      rw [if_pos h1]
    rw [he, show (['\\', Char.ofNat b] ++ r) = '\\' :: Char.ofNat b :: r from rfl,
        scanStr_esc_step (Char.ofNat b) r (by rcases h1 with rfl | rfl <;> decide)]
    rcases hsc : scanStr r with _ | ⟨cont, hu, se, su, rest⟩
    · rfl
    · rcases h1 with rfl | rfl <;> simp [escByteHU, escByteSE]
  · by_cases h9 : b = 9
    · subst h9
      rw [show escByte 9 = ['\\', 't'] from rfl,
          show (['\\', 't'] ++ r) = '\\' :: 't' :: r from rfl,
          scanStr_esc_step 't' r (by decide)]
      rcases hsc : scanStr r with _ | ⟨cont, hu, se, su, rest⟩
      · rfl
      · simp [escByteHU, escByteSE]
    · by_cases h10 : b = 10
      · subst h10
        rw [show escByte 10 = ['\\', 'n'] from rfl,
            show (['\\', 'n'] ++ r) = '\\' :: 'n' :: r from rfl,
            scanStr_esc_step 'n' r (by decide)]
        rcases hsc : scanStr r with _ | ⟨cont, hu, se, su, rest⟩
        · rfl
        · simp [escByteHU, escByteSE]
      · by_cases h13 : b = 13
        · subst h13
          rw [show escByte 13 = ['\\', 'r'] from rfl,
              show (['\\', 'r'] ++ r) = '\\' :: 'r' :: r from rfl,
              scanStr_esc_step 'r' r (by decide)]
          rcases hsc : scanStr r with _ | ⟨cont, hu, se, su, rest⟩
          · rfl
          · simp [escByteHU, escByteSE]
        · by_cases h12 : b = 12
          · subst h12
            rw [show escByte 12 = ['\\', 'f'] from rfl,
                show (['\\', 'f'] ++ r) = '\\' :: 'f' :: r from rfl,
                scanStr_esc_step 'f' r (by decide)]
            rcases hsc : scanStr r with _ | ⟨cont, hu, se, su, rest⟩
            · rfl
            · simp [escByteHU, escByteSE]
          · by_cases h8 : b = 8
            · subst h8
              rw [show escByte 8 = ['\\', 'b'] from rfl,
                  show (['\\', 'b'] ++ r) = '\\' :: 'b' :: r from rfl,
                  scanStr_esc_step 'b' r (by decide)]
              rcases hsc : scanStr r with _ | ⟨cont, hu, se, su, rest⟩
              · rfl
              · simp [escByteHU, escByteSE]
            · have hse : escByteSE b = false := by
                simp only [escByteSE, decide_eq_false_iff_not]
                omega
              by_cases h32 : b < 32 ∨ 127 ≤ b
              · have he : escByte b =
                    ['\\', 'u', '0', '0', hexCh (b % 256 / 16), hexCh (b % 16)] := by
                  unfold escByte
                  rw [if_neg h1, if_neg h9, if_neg h10, if_neg h13, if_neg h12,
                      if_neg h8, if_pos h32]
                have hhu : escByteHU b = true := by
                  simp only [escByteHU, hse, Bool.not_false, Bool.true_and,
                    decide_eq_true_eq]
                  exact h32
                rw [he, show ((['\\', 'u', '0', '0', hexCh (b % 256 / 16),
                      hexCh (b % 16)] ++ r)) =
                    '\\' :: 'u' :: '0' :: '0' :: hexCh (b % 256 / 16) ::
                      hexCh (b % 16) :: r from rfl,
                    scanStr_esc_step 'u' _ (by decide),
                    scanStr_plain_step '0' _ (by decide) (by decide) (by decide),
                    scanStr_plain_step '0' _ (by decide) (by decide) (by decide),
                    scanStr_plain_step (hexCh (b % 256 / 16)) _ (hexCh_ne_nul _)
                      (hexCh_ne_backslash _) (hexCh_ne_quote _),
                    scanStr_plain_step (hexCh (b % 16)) _ (hexCh_ne_nul _)
                      (hexCh_ne_backslash _) (hexCh_ne_quote _)]
                rcases hsc : scanStr r with _ | ⟨cont, hu, se, su, rest⟩
                · rfl
                · simp [hse, hhu, hexCh_not_high]
              · have he : escByte b = [Char.ofNat b] := by
                  unfold escByte
                  rw [if_neg h1, if_neg h9, if_neg h10, if_neg h13, if_neg h12,
                      if_neg h8, if_neg h32]
                have hhu : escByteHU b = false := by
                  simp only [escByteHU, hse, Bool.not_false, Bool.true_and,
                    decide_eq_false_iff_not]
                  exact h32
                have htn : (Char.ofNat b).toNat = b := char_ofNat_toNat b (by omega)
                have hlt : ¬(128 ≤ b) := by omega
                rw [he, show (([Char.ofNat b] ++ r)) = Char.ofNat b :: r from rfl,
                    scanStr_plain_step (Char.ofNat b) r
                      (by
                        intro hc
                        rw [hc, show nulCh.toNat = 0 from rfl] at htn
                        omega)
                      (by
                        intro hc
                        rw [hc, show ('\\' : Char).toNat = 92 from rfl] at htn
                        omega)
                      (by
                        intro hc
                        rw [hc, show ('"' : Char).toNat = 34 from rfl] at htn
                        omega)]
                rcases hsc : scanStr r with _ | ⟨cont, hu, se, su, rest⟩
                · rfl
                · simp [hse, hhu, htn, hlt]

theorem escByte_ne_nil (b : ℕ) : escByte b ≠ [] := by
  unfold escByte
  split
  · simp
  · split
    · simp
    · split
      · simp
      · split
        · simp
        · split
          · simp
          · split
            · simp
            · split <;> simp

/-- Scanning the escaped rendering of a byte string: the closing quote is
found, the content is returned verbatim, and the flags are exactly the
per-byte classifications (never `slash_unescape`). -/
theorem scanStr_escBytes (bs : List ℕ) (hb : ∀ b ∈ bs, b < 256) (r : List Char) :
    scanStr ((bs.map escByte).flatten ++ '"' :: r) =
      some ((bs.map escByte).flatten, bs.any escByteHU, bs.any escByteSE,
        false, r) := by
  induction bs with
  | nil => rfl
  | cons b bs ih =>
    rw [List.map_cons, List.flatten_cons, List.append_assoc,
        scanStr_escByte b (hb b (List.mem_cons_self b bs)) _,
        ih (fun x hx => hb x (List.mem_cons_of_mem b hx))]
    simp [List.any_cons, Bool.or_comm]

theorem uniUnescF_plain (fuel : ℕ) (c : Char) (t : List Char) (hc : c ≠ '\\') :
    uniUnescF (fuel + 1) (c :: t) = (uniUnescF fuel t).map (c.toNat :: ·) := by
  rw [uniUnescF.eq_def]
  split
  · rename_i heq
    exact absurd heq (by omega)
  · rename_i h1 heq
    exact absurd heq (by simp)
  · rename_i h1 heq
    injection heq with heq1 heq2
    exact absurd heq1 hc
  · rename_i f2 c2 t2 hf hc2
    injection hf with e3
    injection hc2 with e1 e2
    subst e3
    subst e1
    subst e2
    rfl

theorem uniUnescF_u_step (fuel : ℕ) (a b c d : Char) (r : List Char) (v : ℕ)
    (hv : hex4 a b c d = some v) (hs : v < 55296) :
    uniUnescF (fuel + 1) ('\\' :: 'u' :: a :: b :: c :: d :: r) =
      (uniUnescF fuel r).map (v :: ·) := by
  have hcond : ¬(55296 ≤ v ∧ v ≤ 56319) := by omega
  simp only [uniUnescF, hv, if_neg hcond]
